import Mathlib

set_option maxHeartbeats 1000000

section

attribute [local semireducible] Rat.mul Rat.inv Rat.add Rat.sub

/-!
Shallow embedding of the Attendance-physics repository.

The repository contains several variants of the same Express server:
the file src/server.js (attendance nested as subject then date, load
always re-reads the backing file) and three related files concatenated
in src/unnamed/part_000: a flat per-date variant with an in-memory
cache consulted on load (first document), a variant with separate
student/attendance files that also computes metrics and rankings
(second document), and a flat near-copy of src/server.js (third
document).

Modelling conventions, stated once here:
  * JavaScript objects used as string-keyed dictionaries are modelled
    as association lists, with lookup returning the first match and
    assignment updating an existing key in place or appending a new
    key, matching insertion-order semantics of string keys.
  * Numbers that the source manipulates with floating point
    (attendance percentages) are modelled exactly as rationals.
  * String comparison (localeCompare and the default sort comparator)
    is modelled as lexicographic comparison of code points, which
    agrees with the JavaScript default comparator on the ASCII data
    the program stores; the spec likewise calls the order
    lexicographic.
  * File system effects are modelled by explicit state: a backing
    file is missing, unparsable, or stores a document, and every
    write either fully succeeds or fully fails as directed by a
    boolean parameter of each operation.
  * JSON-body truthiness checks on string fields treat the empty
    string as the falsy case.
-/

/-! ## Generic string comparison, trimming, and date pattern -/

/-- Lexicographic comparison of character lists by code point. -/
def charListLe : List Char → List Char → Bool
  | [], _ => true
  | _ :: _, [] => false
  | a :: as, b :: bs =>
    if a.toNat < b.toNat then true
    else if b.toNat < a.toNat then false
    else charListLe as bs

/-- Model of the JavaScript string order used by localeCompare and the
default sort comparator on the ASCII strings of this program. -/
def strLe (a b : String) : Bool := charListLe a.data b.data

theorem charListLe_total : ∀ a b, charListLe a b = true ∨ charListLe b a = true := by
  intro a
  induction a with
  | nil => intro b; left; rfl
  | cons x xs ih =>
    intro b
    cases b with
    | nil => right; rfl
    | cons y ys =>
      by_cases h1 : x.toNat < y.toNat
      · left; simp [charListLe, h1]
      · by_cases h2 : y.toNat < x.toNat
        · right; simp [charListLe, h2]
        · have := ih ys
          simp [charListLe, h1, h2]
          exact this

theorem charListLe_trans :
    ∀ a b c, charListLe a b = true → charListLe b c = true → charListLe a c = true := by
  intro a
  induction a with
  | nil => intro b c _ _; rfl
  | cons x xs ih =>
    intro b c hab hbc
    cases b with
    | nil => simp [charListLe] at hab
    | cons y ys =>
      cases c with
      | nil => simp [charListLe] at hbc
      | cons z zs =>
        by_cases hxy : x.toNat < y.toNat
        · by_cases hyz : y.toNat < z.toNat
          · have : x.toNat < z.toNat := Nat.lt_trans hxy hyz
            simp [charListLe, this]
          · by_cases hzy : z.toNat < y.toNat
            · simp [charListLe, hyz, hzy] at hbc
            · have hyz2 : y.toNat = z.toNat := Nat.le_antisymm (Nat.le_of_not_lt hzy) (Nat.le_of_not_lt hyz)
              have : x.toNat < z.toNat := hyz2 ▸ hxy
              simp [charListLe, this]
        · by_cases hyx : y.toNat < x.toNat
          · simp [charListLe, hxy, hyx] at hab
          · have hxy2 : x.toNat = y.toNat := Nat.le_antisymm (Nat.le_of_not_lt hyx) (Nat.le_of_not_lt hxy)
            by_cases hyz : y.toNat < z.toNat
            · have : x.toNat < z.toNat := hxy2 ▸ hyz
              simp [charListLe, this]
            · by_cases hzy : z.toNat < y.toNat
              · simp [charListLe, hyz, hzy] at hbc
              · simp [charListLe, hxy, hyx] at hab
                simp [charListLe, hyz, hzy] at hbc
                have hxz1 : ¬ x.toNat < z.toNat := by omega
                have hxz2 : ¬ z.toNat < x.toNat := by omega
                simp [charListLe, hxz1, hxz2]
                exact ih ys zs hab hbc

theorem strLe_total (a b : String) : strLe a b = true ∨ strLe b a = true :=
  charListLe_total a.data b.data

theorem strLe_trans {a b c : String} (h1 : strLe a b = true) (h2 : strLe b c = true) :
    strLe a c = true :=
  charListLe_trans a.data b.data c.data h1 h2

/-- Model of String.prototype.trim: drop whitespace from both ends. -/
def strTrim (s : String) : String :=
  ⟨((s.data.dropWhile Char.isWhitespace).reverse.dropWhile Char.isWhitespace).reverse⟩

/-- The date pattern used by every validating endpoint: exactly four
digits, a dash, two digits, a dash, two digits. -/
def matchesDateL : List Char → Bool
  | [a, b, c, d, e, f, g, h, i, j] =>
    a.isDigit && b.isDigit && c.isDigit && d.isDigit &&
    (e = '-') && f.isDigit && g.isDigit && (h = '-') && i.isDigit && j.isDigit
  | _ => false

/-- Model of the regular expression test on dates in the source. -/
def matchesDate (s : String) : Bool := matchesDateL s.data

/-! ## Association lists modelling JavaScript objects -/

/-- First-match lookup, modelling property access on an object. -/
def alookup {β : Type} (k : String) : List (String × β) → Option β
  | [] => none
  | (k1, v) :: rest => if k1 = k then some v else alookup k rest

/-- Property assignment: update an existing key in place, otherwise
append the new key, matching insertion-order key semantics. -/
def aset {β : Type} (k : String) (v : β) : List (String × β) → List (String × β)
  | [] => [(k, v)]
  | (k1, v1) :: rest => if k1 = k then (k, v) :: rest else (k1, v1) :: aset k v rest

/-- Update the value at an existing key in place, used for the counter
increments of the metrics computation. -/
def aupdate {β : Type} (k : String) (f : β → β) : List (String × β) → List (String × β)
  | [] => []
  | (k1, v1) :: rest => if k1 = k then (k1, f v1) :: rest else (k1, v1) :: aupdate k f rest

/-- Property deletion, modelling the delete operator. -/
def aremove {β : Type} (k : String) (l : List (String × β)) : List (String × β) :=
  l.filter (fun p => !(p.1 = k : Bool))

theorem alookup_aset_self {β : Type} (k : String) (v : β) (l : List (String × β)) :
    alookup k (aset k v l) = some v := by
  induction l with
  | nil => simp [aset, alookup]
  | cons p rest ih =>
    obtain ⟨k1, v1⟩ := p
    by_cases h : k1 = k
    · simp [aset, h, alookup]
    · simp [aset, h, alookup, ih]

theorem alookup_aset_ne {β : Type} {k k2 : String} (h : k2 ≠ k) (v : β) (l : List (String × β)) :
    alookup k2 (aset k v l) = alookup k2 l := by
  induction l with
  | nil => simp [aset, alookup, Ne.symm h]
  | cons p rest ih =>
    obtain ⟨k1, v1⟩ := p
    by_cases h1 : k1 = k
    · subst h1
      simp [aset, alookup, Ne.symm h]
    · by_cases h2 : k1 = k2 <;> simp [aset, h1, alookup, h2, h, ih]

theorem aset_aset_self {β : Type} (k : String) (v : β) (l : List (String × β)) :
    aset k v (aset k v l) = aset k v l := by
  induction l with
  | nil => simp [aset]
  | cons p rest ih =>
    obtain ⟨k1, v1⟩ := p
    by_cases h : k1 = k
    · simp [aset, h]
    · simp [aset, h, ih]

theorem aset_fresh {β : Type} {k : String} (v : β) {l : List (String × β)}
    (h : k ∉ l.map Prod.fst) : aset k v l = l ++ [(k, v)] := by
  induction l with
  | nil => simp [aset]
  | cons p rest ih =>
    obtain ⟨k1, v1⟩ := p
    simp only [List.map_cons, List.mem_cons, not_or] at h
    have h1 : k1 ≠ k := Ne.symm h.1
    simp [aset, h1, ih h.2]

theorem aupdate_keys {β : Type} (k : String) (f : β → β) (l : List (String × β)) :
    (aupdate k f l).map Prod.fst = l.map Prod.fst := by
  induction l with
  | nil => rfl
  | cons p rest ih =>
    obtain ⟨k1, v1⟩ := p
    by_cases h : k1 = k <;> simp [aupdate, h, ih]

theorem alookup_isSome_iff_mem {β : Type} (k : String) (l : List (String × β)) :
    (alookup k l).isSome = true ↔ k ∈ l.map Prod.fst := by
  induction l with
  | nil => simp [alookup]
  | cons p rest ih =>
    obtain ⟨k1, v1⟩ := p
    by_cases h : k1 = k
    · subst h
      simp [alookup]
    · simp [alookup, h, ih, Ne.symm h]

theorem alookup_map_value {β γ : Type} (g : β → γ) (k : String) (l : List (String × β)) :
    alookup k (l.map (fun p => (p.1, g p.2))) = (alookup k l).map g := by
  induction l with
  | nil => rfl
  | cons p rest ih =>
    obtain ⟨k1, v1⟩ := p
    by_cases h : k1 = k <;> simp [alookup, h, ih]

theorem alookup_graph {β : Type} (f : String → β) (k : String) (ds : List String) {v : β}
    (h : alookup k (ds.map (fun d => (d, f d))) = some v) : v = f k := by
  induction ds with
  | nil => simp [alookup] at h
  | cons d rest ih =>
    by_cases hd : d = k
    · subst hd
      simp [alookup] at h
      exact h.symm
    · simp [alookup, hd] at h
      exact ih h

theorem alookup_of_mem_nodup {β : Type} {l : List (String × β)} {k : String} {v : β}
    (hnd : (l.map Prod.fst).Nodup) (hm : (k, v) ∈ l) : alookup k l = some v := by
  induction l with
  | nil => simp at hm
  | cons p rest ih =>
    obtain ⟨k1, v1⟩ := p
    simp only [List.map_cons, List.nodup_cons] at hnd
    rw [List.mem_cons] at hm
    rcases hm with hm | hm
    · obtain ⟨hk, hv⟩ := Prod.mk.injEq .. ▸ hm
      subst hk
      subst hv
      simp [alookup]
    · have hk : k1 ≠ k := by
        intro h
        subst h
        exact hnd.1 (by simpa using List.mem_map_of_mem Prod.fst hm)
      simp [alookup, hk]
      exact ih hnd.2 hm

/-! ## Formatting: model of Number.prototype.toFixed with one digit -/

/-- Model of toFixed with argument one on nonnegative values: round to
the nearest tenth (ties upward, as the JavaScript spec picks the larger
candidate) and print one decimal digit.  Exact whenever the source
value is exactly representable, which covers every value the claims
evaluate. -/
def fmtFixed1 (q : ℚ) : String :=
  let n : Int := Int.floor (q * 10 + 1 / 2)
  toString (n / 10) ++ "." ++ toString (n % 10)

/-! ## Data model shared by the document-file variants -/

/-- A roster record as created by the add-student handlers: the course
field defaults to the string N/A when absent or empty. -/
structure Student where
  roll_no : String
  name : String
  course : String
deriving DecidableEq, Repr

/-- A request-body attendance item, expected shape roll number plus
status. -/
structure RawEntry where
  roll_no : String
  status : String
deriving DecidableEq, Repr

/-- A stored attendance entry after enrichment with the student name. -/
structure AttEntry where
  roll_no : String
  status : String
  name : String
deriving DecidableEq, Repr

/-- The outcome of a request handler: a status code with a payload, or
a bare error status code. -/
inductive ApiOut (α : Type) where
  | ok (code : Nat) (val : α)
  | fail (code : Nat)
deriving DecidableEq, Repr

/-- The backing JSON file: absent, unparsable, or parsed content. -/
inductive JFile (α : Type) where
  | missing
  | corrupt
  | stored (v : α)
deriving DecidableEq, Repr

abbrev Bucket := List AttEntry

/-- Item validation used by the subject-and-date attendance handler in
src/server.js: a non-empty trimmed roll number and a status that is the
string present or the string absent. -/
def entryShapeOk (a : RawEntry) : Bool :=
  !(strTrim a.roll_no = "" : Bool) && (a.status = "present" || a.status = "absent" : Bool)

/-! ## The nested variant: src/server.js

Attendance is a two-level object keyed by subject then date.  loadData
always re-reads the backing file (the cache variable is assigned on
every load and save but never consulted), backfills missing students or
attendance substructures, substitutes the empty default on a parse
error, and on a missing file creates the default file, ignoring a
failure of that save.  saveData overwrites the file and updates the
cache only after a successful write, and throws on failure, which every
handler maps to status 500. -/

namespace Nested

abbrev DateMap := List (String × Bucket)
abbrev SubjMap := List (String × DateMap)

/-- The in-memory document: roster plus subject-keyed attendance. -/
structure NDoc where
  students : List Student
  attendance : SubjMap
deriving DecidableEq, Repr

/-- Parsed backing-file content; either substructure may be absent. -/
structure RawNDoc where
  students : Option (List Student)
  attendance : Option SubjMap
deriving DecidableEq, Repr

/-- Server state: the cache variable and the backing file. -/
structure NState where
  cache : Option NDoc
  file : JFile RawNDoc
deriving DecidableEq, Repr

def rawOf (d : NDoc) : RawNDoc := ⟨some d.students, some d.attendance⟩

/-- The document a load observes in a given file state: stored content
with absent substructures backfilled, the empty default otherwise. -/
def loadResultN : JFile RawNDoc → NDoc
  | .stored r => ⟨r.students.getD [], r.attendance.getD []⟩
  | _ => ⟨[], []⟩

/-- The document observable through a load of the current state. -/
def docOf (st : NState) : NDoc := loadResultN st.file

/-- loadData of src/server.js: always reads the file, never serves the
cache; on a missing file it writes the default document, swallowing a
write failure; the write-success flag w directs every file write of the
operation. -/
def loadData (st : NState) (w : Bool) : NDoc × NState :=
  match st.file with
  | .stored r =>
    let d : NDoc := ⟨r.students.getD [], r.attendance.getD []⟩
    (d, ⟨some d, .stored r⟩)
  | .corrupt => (⟨[], []⟩, ⟨some ⟨[], []⟩, .corrupt⟩)
  | .missing =>
    (⟨[], []⟩, ⟨some ⟨[], []⟩, if w then .stored (rawOf ⟨[], []⟩) else .missing⟩)

/-- saveData: on success the file holds the serialized document and
only then the cache is updated; on failure it throws, leaving the state
produced so far untouched. -/
def saveData (d : NDoc) (w : Bool) : Option NState :=
  if w then some ⟨some d, .stored (rawOf d)⟩ else none

/-- The course defaulting of the add handler: absent or empty course
becomes the string N/A. -/
def courseOrNA (course : Option String) : String :=
  match course with
  | none => "N/A"
  | some c => if c = "" then "N/A" else c

/-- The comparator of the roster sort, localeCompare on roll numbers. -/
def rollLE (a b : Student) : Prop := strLe a.roll_no b.roll_no = true

instance : DecidableRel rollLE := fun _ _ => instDecidableEqBool _ _

instance : IsTotal Student rollLE := ⟨fun a b => strLe_total a.roll_no b.roll_no⟩

instance : IsTrans Student rollLE := ⟨fun _ _ _ => strLe_trans⟩

/-- POST api students: validate presence of roll number and name, load,
reject duplicates, push the new record, re-sort by roll number, save.
The handler mutates the very object the cache variable references, so
when the save then fails the cache is left holding the mutated
document; only the file keeps its old contents, and loadData re-reads
the file. -/
def addStudent (st : NState) (roll name : String) (course : Option String) (w : Bool) :
    ApiOut Student × NState :=
  if roll = "" ∨ name = "" then (.fail 400, st)
  else
    let (d, st1) := loadData st w
    if (d.students.find? (fun s => s.roll_no = roll)).isSome then (.fail 400, st1)
    else
      let newStudent : Student := ⟨roll, name, courseOrNA course⟩
      let d1 : NDoc :=
        { d with students := List.insertionSort rollLE (d.students ++ [newStudent]) }
      match saveData d1 w with
      | some st2 => (.ok 201 newStudent, st2)
      | none => (.fail 500, ⟨some d1, st1.file⟩)

/-- DELETE api students roll: filter the roster; a missing roll number
is a 404; otherwise filter every subject-and-date bucket and save the
combined change once.  As in the add handler, the mutation lands in the
object the cache references, so a failed save leaves the mutated
document in the cache while the file is untouched. -/
def removeStudent (st : NState) (roll : String) (w : Bool) : ApiOut Unit × NState :=
  let (d, st1) := loadData st w
  let remaining := d.students.filter (fun s => !(s.roll_no = roll : Bool))
  if remaining.length = d.students.length then (.fail 404, st1)
  else
    let d1 : NDoc :=
      { students := remaining,
        attendance := d.attendance.map (fun sp =>
          (sp.1, sp.2.map (fun dp =>
            (dp.1, dp.2.filter (fun att => !(att.roll_no = roll : Bool)))))) }
    match saveData d1 w with
    | some st2 => (.ok 200 (), st2)
    | none => (.fail 500, ⟨some d1, st1.file⟩)

/-- The enrichment of the subject-and-date attendance handler: look
each item up in the roster, keep it with the student name attached when
found, and filter it out otherwise. -/
def enrichN (studs : List Student) (l : List RawEntry) : Bucket :=
  l.filterMap (fun att =>
    (studs.find? (fun s => s.roll_no = att.roll_no)).map
      (fun s => ⟨att.roll_no, att.status, s.name⟩))

/-- The stored bucket for a subject and date, empty when absent. -/
def bucketOf (d : NDoc) (subject date : String) : Bucket :=
  ((alookup subject d.attendance).bind (fun dm => alookup date dm)).getD []

/-- GET api attendance subject date: validate, load, return the bucket
or the empty list. -/
def getAttendance (st : NState) (subject date : String) (w : Bool) :
    ApiOut Bucket × NState :=
  if matchesDate date = false then (.fail 400, st)
  else if subject = "" then (.fail 400, st)
  else
    let (d, st1) := loadData st w
    (.ok 200 (bucketOf d subject date), st1)

/-- POST api attendance subject date: validate the date, the subject
and each item, load, enrich, replace the bucket for that subject and
date, save the whole document.  The enriched bucket is assigned into
the object the cache references, so a failed save leaves the mutated
document in the cache while the file is untouched. -/
def setAttendance (st : NState) (subject date : String) (body : List RawEntry) (w : Bool) :
    ApiOut Unit × NState :=
  if matchesDate date = false then (.fail 400, st)
  else if subject = "" then (.fail 400, st)
  else if !(body.all entryShapeOk) then (.fail 400, st)
  else
    let (d, st1) := loadData st w
    let enriched := enrichN d.students body
    let subjMap := (alookup subject d.attendance).getD []
    let d1 : NDoc := { d with attendance := aset subject (aset date enriched subjMap) d.attendance }
    match saveData d1 w with
    | some st2 => (.ok 200 (), st2)
    | none => (.fail 500, ⟨some d1, st1.file⟩)

theorem loadData_fst (st : NState) (w : Bool) : (loadData st w).1 = docOf st := by
  cases h : st.file <;> simp [loadData, docOf, loadResultN, h]

theorem loadData_docOf (st : NState) (w : Bool) : docOf (loadData st w).2 = docOf st := by
  cases h : st.file <;> cases w <;> simp [loadData, docOf, loadResultN, h, rawOf]

theorem loadData_cache (st : NState) (w : Bool) : (loadData st w).2.cache = some (docOf st) := by
  cases h : st.file <;> simp [loadData, docOf, loadResultN, h]

end Nested

/-! ## The flat cached variant: first document of src/unnamed/part_000

Attendance is keyed by date only.  loadData serves the cache when
present and reads the file only on a cache miss; a missing file is
populated with the default document, and a failure of that default save
propagates out of loadData.  The attendance handler enriches every item
with the student name, substituting the string Unknown when the roll
number matches no student, and stores the enriched item anyway. -/

namespace FlatV1

/-- The in-memory document of the flat variant. -/
structure FDoc where
  students : List Student
  attendance : List (String × Bucket)
deriving DecidableEq, Repr

/-- Parsed backing-file content; either substructure may be absent. -/
structure RawFDoc where
  students : Option (List Student)
  attendance : Option (List (String × Bucket))
deriving DecidableEq, Repr

/-- Server state: the cache variable and the backing file. -/
structure FState where
  cache : Option FDoc
  file : JFile RawFDoc
deriving DecidableEq, Repr

def rawOf (d : FDoc) : RawFDoc := ⟨some d.students, some d.attendance⟩

/-- loadData of the cached variant: the cache short-circuits the file
read; on a miss the file is read and backfilled; a missing file is
recreated with the default document and a failing default save throws
out of loadData, which the none result models. -/
def loadData (st : FState) (w : Bool) : Option FDoc × FState :=
  match st.cache with
  | some d => (some d, st)
  | none =>
    match st.file with
    | .stored r =>
      let d : FDoc := ⟨r.students.getD [], r.attendance.getD []⟩
      (some d, ⟨some d, .stored r⟩)
    | .corrupt => (some ⟨[], []⟩, ⟨some ⟨[], []⟩, .corrupt⟩)
    | .missing =>
      if w then (some ⟨[], []⟩, ⟨some ⟨[], []⟩, .stored (rawOf ⟨[], []⟩)⟩)
      else (none, ⟨some ⟨[], []⟩, .missing⟩)

/-- Item validation of the flat variant: only the status is checked
against the two valid values; the roll number may be any string. -/
def shapeOk1 (a : RawEntry) : Bool :=
  (a.status = "present" || a.status = "absent" : Bool)

/-- Enrichment of the flat variant: every item is kept; the name is the
matching student name, or the string Unknown when no student matches. -/
def enrich1 (studs : List Student) (l : List RawEntry) : Bucket :=
  l.map (fun att =>
    ⟨att.roll_no, att.status,
      match studs.find? (fun s => s.roll_no = att.roll_no) with
      | some s => s.name
      | none => "Unknown"⟩)

/-- POST api attendance date of the flat variant.  The handler mutates
the loaded document in place, and that document is the very object the
cache holds, so even when the save then fails the cache is left holding
the mutated document; only the file keeps its old contents. -/
def setAttendance (st : FState) (date : String) (body : List RawEntry) (w : Bool) :
    ApiOut Unit × FState :=
  if matchesDate date = false then (.fail 400, st)
  else if !(body.all shapeOk1) then (.fail 400, st)
  else
    match loadData st w with
    | (none, st1) => (.fail 500, st1)
    | (some d, st1) =>
      let d1 : FDoc := { d with attendance := aset date (enrich1 d.students body) d.attendance }
      if w then (.ok 200 (), ⟨some d1, .stored (rawOf d1)⟩)
      else (.fail 500, ⟨some d1, st1.file⟩)

/-- DELETE api students roll of the flat variant: filter the roster,
404 when nothing was removed, otherwise filter every date bucket and
save once.  As with the attendance handler, the mutation lands in the
cached object even when the save fails. -/
def removeStudent (st : FState) (roll : String) (w : Bool) : ApiOut Unit × FState :=
  match loadData st w with
  | (none, st1) => (.fail 500, st1)
  | (some d, st1) =>
    let remaining := d.students.filter (fun s => !(s.roll_no = roll : Bool))
    if remaining.length = d.students.length then (.fail 404, st1)
    else
      let d1 : FDoc :=
        ⟨remaining,
         (d.attendance.map (fun dp =>
           (dp.1, dp.2.filter (fun att => !(att.roll_no = roll : Bool)))))⟩
      if w then (.ok 200 (), ⟨some d1, .stored (rawOf d1)⟩)
      else (.fail 500, ⟨some d1, st1.file⟩)

/-- GET api attendance date of the flat variant. -/
def getAttendance (st : FState) (date : String) (w : Bool) : ApiOut Bucket × FState :=
  if matchesDate date = false then (.fail 400, st)
  else
    match loadData st w with
    | (none, st1) => (.fail 500, st1)
    | (some d, st1) => (.ok 200 ((alookup date d.attendance).getD []), st1)

end FlatV1

/-! ## The metrics variant: second document of src/unnamed/part_000

Students and attendance live in two separate files and two module
variables; saves return a success flag.  On a failed save the add
handler pops the push, the attendance handler deletes the bucket, and
the delete handler re-reads both backing files.  The attendance
handlers perform no date format validation, the student add pushes
without sorting and without a course field, and the student delete
never touches the attendance variable.  This variant owns
calculateMetrics and the metrics, student-metrics and rankings
endpoints. -/

namespace MetricsV

/-- A roster record of the metrics variant: no course field. -/
structure MStudent where
  roll_no : String
  name : String
deriving DecidableEq, Repr

/-- A stored attendance record of the metrics variant; the body is
stored verbatim and is expected to carry roll number, name, status. -/
structure MEntry where
  roll_no : String
  name : String
  status : String
deriving DecidableEq, Repr

/-- The two module variables holding the data. -/
structure MState where
  students : List MStudent
  attendance : List (String × List MEntry)
deriving DecidableEq, Repr

/-- POST api students of the metrics variant: validate, reject
duplicates, push without sorting, revert the push when the save
fails. -/
def addStudent (st : MState) (roll name : String) (w : Bool) : ApiOut MStudent × MState :=
  if roll = "" ∨ name = "" then (.fail 400, st)
  else if st.students.any (fun s => s.roll_no = roll) then (.fail 400, st)
  else if w then (.ok 201 ⟨roll, name⟩, { st with students := st.students ++ [⟨roll, name⟩] })
  else (.fail 500, st)

/-- POST api attendance date of the metrics variant: no date format
check; each item needs a truthy roll number and status; the bucket is
replaced wholesale and deleted again when the save fails. -/
def setAttendance (st : MState) (date : String) (body : List MEntry) (w : Bool) :
    ApiOut Unit × MState :=
  if body.any (fun a => (a.roll_no = "" : Bool) || (a.status = "" : Bool)) then (.fail 400, st)
  else if w then (.ok 200 (), { st with attendance := aset date body st.attendance })
  else (.fail 500, { st with attendance := aremove date st.attendance })

/-- DELETE api students roll of the metrics variant: reassign the
students variable to the filtered list; when nothing was removed answer
404; otherwise save the students file, answering 200 on success.  The
attendance variable is never touched.  On a failed save the handler
calls loadData, which re-reads both backing files; the reload parameter
is the state that re-read produces. -/
def removeStudent (st : MState) (roll : String) (w : Bool) (reload : MState) :
    ApiOut Unit × MState :=
  let remaining := st.students.filter (fun s => !(s.roll_no = roll : Bool))
  if remaining.length < st.students.length then
    if w then (.ok 200 (), { st with students := remaining })
    else (.fail 500, reload)
  else (.fail 404, { st with students := remaining })

/-- GET api attendance date of the metrics variant: the stored bucket
verbatim, the empty list when the date has no bucket; no date format
check and always status 200. -/
def getAttendance (st : MState) (date : String) : ApiOut (List MEntry) :=
  match alookup date st.attendance with
  | some es => .ok 200 es
  | none => .ok 200 []

/-- Per-student counters of calculateMetrics. -/
structure SMet where
  name : String
  present : Nat
  absent : Nat
  total : Nat
deriving DecidableEq, Repr

/-- The initial per-student metrics object, keyed by roll number. -/
def initMetrics (studs : List MStudent) : List (String × SMet) :=
  studs.foldl (fun m s => aset s.roll_no ⟨s.name, 0, 0, 0⟩ m) []

/-- The accumulator of the two nested loops of calculateMetrics. -/
structure Acc where
  metrics : List (String × SMet)
  presentCount : Nat
  validCount : Nat
  totalPresent : Nat
  totalRecords : Nat
deriving DecidableEq, Repr

/-- One entry of the inner loop: entries whose roll number is not a key
of the metrics object are ignored; otherwise the per-student and
per-day counters advance according to the status. -/
def procEntry (a : Acc) (e : MEntry) : Acc :=
  match alookup e.roll_no a.metrics with
  | none => a
  | some _ =>
    let m1 := aupdate e.roll_no (fun sm => { sm with total := sm.total + 1 }) a.metrics
    if e.status = "present" then
      { metrics := aupdate e.roll_no (fun sm => { sm with present := sm.present + 1 }) m1,
        presentCount := a.presentCount + 1, validCount := a.validCount + 1,
        totalPresent := a.totalPresent + 1, totalRecords := a.totalRecords + 1 }
    else if e.status = "absent" then
      { metrics := aupdate e.roll_no (fun sm => { sm with absent := sm.absent + 1 }) m1,
        presentCount := a.presentCount, validCount := a.validCount + 1,
        totalPresent := a.totalPresent, totalRecords := a.totalRecords + 1 }
    else
      { metrics := m1,
        presentCount := a.presentCount, validCount := a.validCount + 1,
        totalPresent := a.totalPresent, totalRecords := a.totalRecords + 1 }

/-- The string order used by the sort call on the date keys. -/
def dateLE (a b : String) : Prop := strLe a b = true

instance : DecidableRel dateLE := fun _ _ => instDecidableEqBool _ _

instance : IsTotal String dateLE := ⟨strLe_total⟩

instance : IsTrans String dateLE := ⟨fun _ _ _ => strLe_trans⟩

/-- State threaded through the outer loop over the sorted dates. -/
structure DayAcc where
  metrics : List (String × SMet)
  dailyRates : List (String × ℚ)
  totalPresent : Nat
  totalRecords : Nat
deriving DecidableEq, Repr

/-- One date of the outer loop: run the inner loop over the bucket,
record the daily rate (zero when the day has no valid entries), and
carry the running totals. -/
def procDate (att : List (String × List MEntry)) (a : DayAcc) (date : String) : DayAcc :=
  let es := (alookup date att).getD []
  let inner := es.foldl procEntry ⟨a.metrics, 0, 0, a.totalPresent, a.totalRecords⟩
  { metrics := inner.metrics,
    dailyRates := aset date
      (if inner.validCount > 0 then (inner.presentCount : ℚ) / (inner.validCount : ℚ) * 100 else 0)
      a.dailyRates,
    totalPresent := inner.totalPresent,
    totalRecords := inner.totalRecords }

/-- The result record of calculateMetrics. -/
structure MetOut where
  totalClasses : Nat
  avgAttendance : ℚ
  bestDayDate : String
  bestDayVal : ℚ
  worstDayDate : String
  worstDayVal : ℚ
  studentMetrics : List (String × SMet)
  dailyRates : List (String × ℚ)
deriving DecidableEq, Repr

/-- The accumulator state left by the outer date loop of
calculateMetrics. -/
def metricsAcc (st : MState) : DayAcc :=
  (List.insertionSort dateLE (st.attendance.map Prod.fst)).foldl
    (procDate st.attendance) ⟨initMetrics st.students, [], 0, 0⟩

/-- calculateMetrics of the metrics variant. -/
def calculateMetrics (st : MState) : MetOut :=
  let dates := st.attendance.map Prod.fst
  let acc := metricsAcc st
  let base : MetOut :=
    { totalClasses := dates.length,
      avgAttendance :=
        if acc.totalRecords > 0 then (acc.totalPresent : ℚ) / (acc.totalRecords : ℚ) * 100 else 0,
      bestDayDate := "-", bestDayVal := 0, worstDayDate := "-", worstDayVal := 100,
      studentMetrics := acc.metrics, dailyRates := acc.dailyRates }
  match acc.dailyRates with
  | [] => base
  | p :: rest =>
    let bestVal := (rest.map Prod.snd).foldl max p.2
    let worstVal := (rest.map Prod.snd).foldl min p.2
    { base with
      bestDayVal := bestVal, worstDayVal := worstVal,
      bestDayDate := (((p :: rest).find? (fun q => q.2 = bestVal)).map Prod.fst).getD "-",
      worstDayDate := (((p :: rest).find? (fun q => q.2 = worstVal)).map Prod.fst).getD "-" }

/-- The JSON payload of GET api metrics. -/
structure MetricsResp where
  totalClasses : Nat
  avgAttendance : String
  bestDay : String
  worstDay : String
  dailyRates : List (String × ℚ)
deriving DecidableEq, Repr

/-- GET api metrics: format the averages and the best and worst day. -/
def metricsResponse (st : MState) : MetricsResp :=
  let m := calculateMetrics st
  { totalClasses := m.totalClasses,
    avgAttendance := fmtFixed1 m.avgAttendance ++ "%",
    bestDay :=
      if !(m.bestDayDate = "-" : Bool) then
        m.bestDayDate ++ " (" ++ fmtFixed1 m.bestDayVal ++ "%)"
      else "-",
    worstDay :=
      if !(m.worstDayDate = "-" : Bool) then
        m.worstDayDate ++ " (" ++ fmtFixed1 m.worstDayVal ++ "%)"
      else "-",
    dailyRates := m.dailyRates }

/-- One row of the ranking before the rank is attached. -/
structure Summary where
  roll_no : String
  name : String
  percent : ℚ
deriving DecidableEq, Repr

/-- The per-student summaries built from the metrics object. -/
def summaries (metrics : List (String × SMet)) : List Summary :=
  metrics.map (fun p =>
    ⟨p.1, p.2.name, if p.2.total > 0 then (p.2.present : ℚ) / (p.2.total : ℚ) * 100 else 0⟩)

/-- The ranking sort order: descending percentage, ties broken by the
ascending name order. -/
def sumLE (a b : Summary) : Prop :=
  b.percent < a.percent ∨ (a.percent = b.percent ∧ strLe a.name b.name = true)

instance : DecidableRel sumLE := fun a b => by
  unfold sumLE
  infer_instance

instance : IsTotal Summary sumLE := by
  constructor
  intro a b
  rcases lt_trichotomy a.percent b.percent with h | h | h
  · right; left; exact h
  · rcases strLe_total a.name b.name with hn | hn
    · left; right; exact ⟨h, hn⟩
    · right; right; exact ⟨h.symm, hn⟩
  · left; left; exact h

instance : IsTrans Summary sumLE := by
  constructor
  intro a b c hab hbc
  rcases hab with hab | ⟨hab1, hab2⟩
  · rcases hbc with hbc | ⟨hbc1, hbc2⟩
    · left; exact lt_trans hbc hab
    · left; exact hbc1 ▸ hab
  · rcases hbc with hbc | ⟨hbc1, hbc2⟩
    · left; exact hab1 ▸ hbc
    · right; exact ⟨hab1.trans hbc1, strLe_trans hab2 hbc2⟩

/-- The ranked rows returned by GET api rankings, with the exact
percentage kept alongside. -/
structure Ranked where
  rank : Nat
  roll_no : String
  name : String
  percent : ℚ
deriving DecidableEq, Repr

/-- The rank-attaching pass over the sorted summaries, carrying the
last percentage seen, the current rank, and the count of further
students already placed at the current rank. -/
def addRanks : List Summary → ℚ → Nat → Nat → List Ranked
  | [], _, _, _ => []
  | s :: rest, lastP, curRank, atRank =>
    if s.percent ≠ lastP then
      ⟨curRank + atRank + 1, s.roll_no, s.name, s.percent⟩ ::
        addRanks rest s.percent (curRank + atRank + 1) 0
    else
      ⟨curRank, s.roll_no, s.name, s.percent⟩ :: addRanks rest lastP curRank (atRank + 1)

/-- GET api rankings before the display formatting of the percentage:
build the summaries, sort, attach ranks starting from the sentinel
percentage minus one. -/
def rankingsList (st : MState) : List Ranked :=
  addRanks (List.insertionSort sumLE (summaries (calculateMetrics st).studentMetrics)) (-1) 0 0

/-- One row of the rankings JSON payload, percentage formatted. -/
structure RankedRow where
  rank : Nat
  roll_no : String
  name : String
  attendance_percent : String
deriving DecidableEq, Repr

/-- The rankings JSON payload as sent to the client. -/
def rankingsPayload (st : MState) : List RankedRow :=
  (rankingsList st).map (fun r => ⟨r.rank, r.roll_no, r.name, fmtFixed1 r.percent⟩)

end MetricsV


/-! ## Claim C10: date validation on attendance endpoints -/

/-- A concrete valid roster entry reused by several witnesses. -/
def wStudent : Student := ⟨"001", "Alice", "N/A"⟩

/-- A concrete nested-variant state whose file stores one student and
no attendance. -/
def wNState : Nested.NState :=
  ⟨none, .stored ⟨some [wStudent], some []⟩⟩

/-- C10 counterexample: the attendance save endpoint of the metrics
variant performs no date format validation, so the malformed date
2024-1-1 is accepted with status 200 and a write occurs, storing the
malformed string verbatim as a bucket key.  This contradicts the claim
that every attendance endpoint rejects a date exactly when it fails the
four-two-two digit pattern and that a malformed date performs no
write. -/
theorem c10_counterexample :
    matchesDate "2024-1-1" = false ∧
    MetricsV.setAttendance ⟨[⟨"001", "Alice"⟩], []⟩ "2024-1-1"
        [⟨"001", "Alice", "present"⟩] true =
      (.ok 200 (), ⟨[⟨"001", "Alice"⟩], [("2024-1-1", [⟨"001", "Alice", "present"⟩])]⟩) := by
  constructor
  · decide
  · decide

/-- C10 amended: the date-validating attendance endpoints, namely both
subject-and-date endpoints of src/server.js and both per-date endpoints
of the flat cached variant, reject a date that fails the literal
four-two-two digit pattern with status 400 before any load or write,
leaving the state untouched; any string matching the pattern is
accepted, including calendar-invalid ones such as 2024-13-99, which is
stored verbatim as a bucket key; the attendance endpoints of the
metrics variant perform no date format validation. -/
theorem c10_date_validation
    (stN : Nested.NState) (stF : FlatV1.FState) (subject date : String)
    (body : List RawEntry) (w : Bool)
    (hd : matchesDate date = false) :
    Nested.setAttendance stN subject date body w = (.fail 400, stN) ∧
    Nested.getAttendance stN subject date w = (.fail 400, stN) ∧
    FlatV1.setAttendance stF date body w = (.fail 400, stF) ∧
    FlatV1.getAttendance stF date w = (.fail 400, stF) ∧
    matchesDate "2024-13-99" = true ∧
    matchesDate "2024-1-1" = false ∧
    Nested.setAttendance wNState "Physics" "2024-13-99" [⟨"001", "present"⟩] true =
      (.ok 200 (),
        ⟨some ⟨[wStudent], [("Physics", [("2024-13-99", [⟨"001", "present", "Alice"⟩])])]⟩,
         .stored ⟨some [wStudent],
           some [("Physics", [("2024-13-99", [⟨"001", "present", "Alice"⟩])])]⟩⟩) := by
  refine ⟨?_, ?_, ?_, ?_, by decide, by decide, by decide⟩
  · simp [Nested.setAttendance, hd]
  · simp [Nested.getAttendance, hd]
  · simp [FlatV1.setAttendance, hd]
  · simp [FlatV1.getAttendance, hd]

/-- C10 witness: the amended theorem applied at a malformed concrete
date. -/
theorem c10_witness :
    matchesDate "2024-01" = false ∧
    Nested.setAttendance wNState "Physics" "2024-01" [] true = (.fail 400, wNState) :=
  ⟨by decide,
    (c10_date_validation wNState ⟨none, .missing⟩ "Physics" "2024-01" [] true (by decide)).1⟩

/-! ## The mutated documents built by the three nested handlers -/

/-- The document produced by the attendance handler: the bucket for the
subject and date is replaced by the enriched list.  On a successful
save it is stored; on a failed save it is left in the cache. -/
def nestedSetDoc (d : Nested.NDoc) (subject date : String) (body : List RawEntry) :
    Nested.NDoc :=
  { d with attendance :=
      (aset subject
        (aset date (Nested.enrichN d.students body) ((alookup subject d.attendance).getD []))
        d.attendance) }

/-- The document produced by the delete handler: roster and every
bucket filtered of the roll number.  On a successful save it is stored;
on a failed save it is left in the cache. -/
def nestedRemoveDoc (d : Nested.NDoc) (roll : String) : Nested.NDoc :=
  { students := d.students.filter (fun s => !(s.roll_no = roll : Bool)),
    attendance := (d.attendance.map (fun sp =>
      (sp.1, sp.2.map (fun dp =>
        (dp.1, dp.2.filter (fun att => !(att.roll_no = roll : Bool))))))) }

/-- The document produced by the add handler: the re-sorted extended
roster.  On a successful save it is stored; on a failed save it is left
in the cache. -/
def nestedAddDoc (d : Nested.NDoc) (roll name : String) (course : Option String) :
    Nested.NDoc :=
  { d with students :=
      (List.insertionSort Nested.rollLE
        (d.students ++ [⟨roll, name, Nested.courseOrNA course⟩])) }

/-! ## Claim C1: a failing save surfaces a 500 and what a subsequent
load observes -/

/-- C1 amended: for each of the three mutating operations of
src/server.js, if the inputs pass validation so that the operation
reaches its save, and the file write fails, then the handler answers
with status 500 (the persistence failure), the backing file is
untouched, and the document observable through a subsequent load is the
pre-mutation one, because loadData of that variant always re-reads the
file; the cache variable, however, is left referencing the mutated
document, since the handler mutated the very object it references, but
that cache is never read.  In the flat cached variant the same aliasing
is observable: a failed attendance save answers 500 but leaves the
mutated document in the cache, where the next load, served from the
cache, observes it; only the file keeps the pre-mutation contents.  The
roll number added and the roll number removed are quantified separately
so that both paths reach their save. -/
theorem c1_save_failure_preserves_document
    (st : Nested.NState) (roll rollD name subject date : String) (course : Option String)
    (body : List RawEntry) (dF : FlatV1.FDoc) (fF : JFile FlatV1.RawFDoc)
    (hbF : body.all FlatV1.shapeOk1 = true)
    (hr : ¬ roll = "") (hn : ¬ name = "")
    (hdup : ((Nested.docOf st).students.find? (fun s => s.roll_no = roll)).isSome = false)
    (hex : ¬ ((Nested.docOf st).students.filter
        (fun s => !(s.roll_no = rollD : Bool))).length = (Nested.docOf st).students.length)
    (hd : matchesDate date = true) (hs : ¬ subject = "")
    (hb : body.all entryShapeOk = true) :
    ((Nested.addStudent st roll name course false =
        (.fail 500, ⟨some (nestedAddDoc (Nested.docOf st) roll name course), st.file⟩)) ∧
      Nested.docOf (Nested.addStudent st roll name course false).2 = Nested.docOf st) ∧
    ((Nested.removeStudent st rollD false =
        (.fail 500, ⟨some (nestedRemoveDoc (Nested.docOf st) rollD), st.file⟩)) ∧
      Nested.docOf (Nested.removeStudent st rollD false).2 = Nested.docOf st) ∧
    ((Nested.setAttendance st subject date body false =
        (.fail 500, ⟨some (nestedSetDoc (Nested.docOf st) subject date body), st.file⟩)) ∧
      Nested.docOf (Nested.setAttendance st subject date body false).2 = Nested.docOf st) ∧
    FlatV1.setAttendance ⟨some dF, fF⟩ date body false =
      (.fail 500,
        ⟨some { dF with attendance :=
            (aset date (FlatV1.enrich1 dF.students body) dF.attendance) }, fF⟩) := by
  refine ⟨?_, ?_, ?_, ?_⟩
  · cases hf : st.file <;>
      simp only [Nested.docOf, Nested.loadResultN, hf] at hdup hex ⊢
    · exact absurd (by simp) hex
    · exact absurd (by simp) hex
    · constructor <;>
        simp [Nested.addStudent, Nested.loadData, Nested.saveData, Nested.rawOf,
          Nested.docOf, Nested.loadResultN, nestedAddDoc, hf, hr, hn, hdup]
  · cases hf : st.file <;>
      simp only [Nested.docOf, Nested.loadResultN, hf] at hdup hex ⊢
    · exact absurd (by simp) hex
    · exact absurd (by simp) hex
    · constructor <;>
        simp [Nested.removeStudent, Nested.loadData, Nested.saveData, Nested.rawOf,
          Nested.docOf, Nested.loadResultN, nestedRemoveDoc, hf, hex]
  · cases hf : st.file <;>
      simp only [Nested.docOf, Nested.loadResultN, hf] at hdup hex ⊢
    · exact absurd (by simp) hex
    · exact absurd (by simp) hex
    · constructor <;>
        simp [Nested.setAttendance, Nested.loadData, Nested.saveData, Nested.rawOf,
          Nested.docOf, Nested.loadResultN, nestedSetDoc, hf, hd, hs, hb]
  · simp [FlatV1.setAttendance, FlatV1.loadData, hd, hbF]

/-- C1 witness: the theorem applied at a concrete state holding one
student with roll number 002, adding roll number 001 and removing roll
number 002 under a failing write. -/
theorem c1_witness :
    (Nested.addStudent ⟨none, .stored ⟨some [⟨"002", "Bob", "N/A"⟩], some []⟩⟩
        "001" "Alice" none false).1 = .fail 500 ∧
    (Nested.removeStudent ⟨none, .stored ⟨some [⟨"002", "Bob", "N/A"⟩], some []⟩⟩
        "002" false).1 = .fail 500 ∧
    Nested.docOf (Nested.setAttendance ⟨none, .stored ⟨some [⟨"002", "Bob", "N/A"⟩], some []⟩⟩
        "Physics" "2024-01-01" [⟨"002", "present"⟩] false).2 =
      Nested.docOf ⟨none, .stored ⟨some [⟨"002", "Bob", "N/A"⟩], some []⟩⟩ := by
  have h := c1_save_failure_preserves_document
    ⟨none, .stored ⟨some [⟨"002", "Bob", "N/A"⟩], some []⟩⟩
    "001" "002" "Alice" "Physics" "2024-01-01" none [⟨"002", "present"⟩]
    ⟨[], []⟩ .missing
    (by decide) (by decide) (by decide) (by decide) (by decide) (by decide) (by decide)
    (by decide)
  exact ⟨by rw [h.1.1], by rw [h.2.1.1], h.2.2.1.2⟩

/-- C1 counterexample: in the flat cached variant a failed attendance
save answers 500, yet the very next load, served from the cache,
observes the bucket written by the failed request, because the handler
mutated the cached document in place; the document observable via a
subsequent load is therefore changed by the failed mutating request. -/
theorem c1_counterexample :
    (FlatV1.setAttendance ⟨some ⟨[wStudent], []⟩, .stored ⟨some [wStudent], some []⟩⟩
        "2024-01-01" [⟨"001", "present"⟩] false).1 = .fail 500 ∧
    (FlatV1.loadData
        (FlatV1.setAttendance ⟨some ⟨[wStudent], []⟩, .stored ⟨some [wStudent], some []⟩⟩
          "2024-01-01" [⟨"001", "present"⟩] false).2 true).1 =
      some ⟨[wStudent], [("2024-01-01", [⟨"001", "present", "Alice"⟩])]⟩ ∧
    ¬ ((⟨[wStudent], [("2024-01-01", [⟨"001", "present", "Alice"⟩])]⟩ : FlatV1.FDoc) =
      ⟨[wStudent], []⟩) ∧
    (FlatV1.setAttendance ⟨some ⟨[wStudent], []⟩, .stored ⟨some [wStudent], some []⟩⟩
        "2024-01-01" [⟨"001", "present"⟩] false).2.file =
      .stored ⟨some [wStudent], some []⟩ :=
  ⟨by decide, by decide, by decide, by decide⟩

/-! ## Claim C4: attendance upsert is an idempotent replacement -/

theorem nested_loadResult_raw (d : Nested.NDoc) :
    Nested.loadResultN (.stored (Nested.rawOf d)) = d := rfl

/-- Computation lemma: a successful attendance save, on valid inputs,
returns 200 and stores exactly the replaced document. -/
theorem nested_setAttendance_eq (st : Nested.NState) (subject date : String)
    (body : List RawEntry)
    (hd : matchesDate date = true) (hs : ¬ subject = "") (hb : body.all entryShapeOk = true) :
    Nested.setAttendance st subject date body true =
      (.ok 200 (),
        ⟨some (nestedSetDoc (Nested.docOf st) subject date body),
         .stored (Nested.rawOf (nestedSetDoc (Nested.docOf st) subject date body))⟩) := by
  cases hf : st.file <;>
    simp [Nested.setAttendance, Nested.loadData, Nested.saveData, Nested.docOf,
      Nested.loadResultN, nestedSetDoc, hf, hd, hs, hb]

theorem nested_setDoc_idem (d : Nested.NDoc) (subject date : String) (body : List RawEntry) :
    nestedSetDoc (nestedSetDoc d subject date body) subject date body =
      nestedSetDoc d subject date body := by
  unfold nestedSetDoc
  simp only [alookup_aset_self, Option.getD_some, aset_aset_self]

/-! ## Claim C3: treatment of entries whose roll number is unknown -/

/-- The document the flat cached variant works on: the cache when
present, otherwise what a file read would produce. -/
def flatEffDoc (st : FlatV1.FState) : FlatV1.FDoc :=
  match st.cache with
  | some d => d
  | none =>
    match st.file with
    | .stored r => ⟨r.students.getD [], r.attendance.getD []⟩
    | _ => ⟨[], []⟩

/-- The document produced by a successful flat attendance save. -/
def flatSetDoc (d : FlatV1.FDoc) (date : String) (body : List RawEntry) : FlatV1.FDoc :=
  { d with attendance := (aset date (FlatV1.enrich1 d.students body) d.attendance) }

/-- Computation lemma: with a succeeding write the flat attendance save
returns 200 and stores the enriched list, unknown roll numbers
included. -/
theorem flat_setAttendance_eq (st : FlatV1.FState) (date : String) (body : List RawEntry)
    (hd : matchesDate date = true) (hbF : body.all FlatV1.shapeOk1 = true) :
    FlatV1.setAttendance st date body true =
      (.ok 200 (),
        ⟨some (flatSetDoc (flatEffDoc st) date body),
         .stored (FlatV1.rawOf (flatSetDoc (flatEffDoc st) date body))⟩) := by
  cases hc : st.cache with
  | some d =>
    simp [FlatV1.setAttendance, FlatV1.loadData, flatEffDoc, flatSetDoc, hc, hd, hbF]
  | none =>
    cases hf : st.file <;>
      simp [FlatV1.setAttendance, FlatV1.loadData, flatEffDoc, flatSetDoc, hc, hf, hd, hbF]

theorem flatSetDoc_idem (d : FlatV1.FDoc) (date : String) (body : List RawEntry) :
    flatSetDoc (flatSetDoc d date body) date body = flatSetDoc d date body := by
  show (⟨d.students, aset date (FlatV1.enrich1 d.students body)
      (aset date (FlatV1.enrich1 d.students body) d.attendance)⟩ : FlatV1.FDoc) = _
  rw [aset_aset_self]
  rfl

/-- C4: on valid inputs and a succeeding write, the attendance save of
src/server.js answers 200, the stored bucket for the subject and date
equals the enrichment of the request list computed against the current
roster, whatever the bucket held before, and repeating the identical
call returns the identical response and leaves the stored state exactly
as after the first call, so any later read of any bucket agrees with a
single call; the per-date attendance save of the flat cached variant is
a replacement upsert and idempotent in the same sense. -/
theorem c4_setAttendance_idempotent
    (st : Nested.NState) (stF : FlatV1.FState) (subject date : String) (body : List RawEntry)
    (hd : matchesDate date = true) (hs : ¬ subject = "") (hb : body.all entryShapeOk = true)
    (hbF : body.all FlatV1.shapeOk1 = true) :
    (Nested.setAttendance st subject date body true).1 = .ok 200 () ∧
    Nested.bucketOf (Nested.docOf (Nested.setAttendance st subject date body true).2)
        subject date =
      Nested.enrichN (Nested.docOf st).students body ∧
    Nested.setAttendance (Nested.setAttendance st subject date body true).2
        subject date body true =
      (.ok 200 (), (Nested.setAttendance st subject date body true).2) ∧
    (FlatV1.setAttendance stF date body true).1 = .ok 200 () ∧
    (alookup date (flatSetDoc (flatEffDoc stF) date body).attendance).getD [] =
      FlatV1.enrich1 (flatEffDoc stF).students body ∧
    FlatV1.setAttendance (FlatV1.setAttendance stF date body true).2 date body true =
      (.ok 200 (), (FlatV1.setAttendance stF date body true).2) := by
  have h1 := nested_setAttendance_eq st subject date body hd hs hb
  have h2 := flat_setAttendance_eq stF date body hd hbF
  refine ⟨by rw [h1], ?_, ?_, by rw [h2], ?_, ?_⟩
  · rw [h1]
    show Nested.bucketOf (Nested.docOf ⟨_, _⟩) subject date = _
    simp only [Nested.docOf, nested_loadResult_raw]
    unfold Nested.bucketOf nestedSetDoc
    simp only [alookup_aset_self, Option.some_bind, Option.getD_some]
  · have hpost : Nested.docOf (Nested.setAttendance st subject date body true).2 =
        nestedSetDoc (Nested.docOf st) subject date body := by
      rw [h1]
      rfl
    have h3 := nested_setAttendance_eq
      (Nested.setAttendance st subject date body true).2 subject date body hd hs hb
    rw [hpost, nested_setDoc_idem] at h3
    rw [h3, h1]
  · unfold flatSetDoc
    simp only [alookup_aset_self, Option.getD_some]
  · have hpostF : flatEffDoc (FlatV1.setAttendance stF date body true).2 =
        flatSetDoc (flatEffDoc stF) date body := by
      rw [h2]
      rfl
    have h4 := flat_setAttendance_eq
      (FlatV1.setAttendance stF date body true).2 date body hd hbF
    rw [hpostF, flatSetDoc_idem] at h4
    rw [h4, h2]

/-- C4 witness: the theorem applied at a concrete state, with the
resulting stored bucket evaluated. -/
theorem c4_witness :
    (Nested.setAttendance wNState "Physics" "2024-01-01" [⟨"001", "present"⟩] true).1 =
      .ok 200 () ∧
    Nested.bucketOf
        (Nested.docOf
          (Nested.setAttendance wNState "Physics" "2024-01-01" [⟨"001", "present"⟩] true).2)
        "Physics" "2024-01-01" = [⟨"001", "present", "Alice"⟩] := by
  have h := c4_setAttendance_idempotent wNState ⟨none, .missing⟩ "Physics" "2024-01-01"
    [⟨"001", "present"⟩] (by decide) (by decide) (by decide) (by decide)
  refine ⟨h.1, ?_⟩
  rw [h.2.1]
  decide

theorem enrichN_mem (studs : List Student) (body : List RawEntry) :
    ∀ e ∈ Nested.enrichN studs body, ∃ s ∈ studs, s.roll_no = e.roll_no := by
  induction body with
  | nil => intro e he; simp [Nested.enrichN] at he
  | cons a rest ih =>
    intro e he
    rw [Nested.enrichN, List.filterMap_cons] at he
    cases hfind : studs.find? (fun s => s.roll_no = a.roll_no) with
    | none => rw [hfind] at he; exact ih e he
    | some s =>
      rw [hfind] at he
      simp only [Option.map_some', List.mem_cons] at he
      rcases he with he | he
      · refine ⟨s, List.mem_of_find?_eq_some hfind, ?_⟩
        have := List.find?_some hfind
        simp at this
        rw [he]
        exact this
      · exact ih e he

theorem enrichN_filter (studs : List Student) (body : List RawEntry) :
    Nested.enrichN studs body =
      Nested.enrichN studs
        (body.filter (fun a => (studs.find? (fun s => s.roll_no = a.roll_no)).isSome)) := by
  induction body with
  | nil => rfl
  | cons a rest ih =>
    rw [Nested.enrichN, List.filterMap_cons, List.filter_cons]
    cases hfind : studs.find? (fun s => s.roll_no = a.roll_no) with
    | none =>
      simp only [hfind, Option.map_none', Option.isSome_none, Bool.false_eq_true, if_false]
      exact ih
    | some s =>
      simp only [hfind, Option.map_some', Option.isSome_some, if_true]
      rw [Nested.enrichN, List.filterMap_cons, hfind]
      simp only [Option.map_some']
      rw [Nested.enrichN] at ih
      rw [ih]
      rfl

/-- C3 counterexample: in the flat cached variant an attendance item
whose roll number 999 matches no student, yet satisfies the shape
constraint, is persisted anyway, enriched with the name Unknown, and
the call succeeds.  This refutes the claim that no entry for an unknown
student is ever persisted. -/
theorem c3_counterexample :
    [wStudent].all (fun s => !(s.roll_no = "999" : Bool)) = true ∧
    FlatV1.setAttendance ⟨some ⟨[wStudent], []⟩, .stored ⟨some [wStudent], some []⟩⟩
        "2024-01-01" [⟨"999", "present"⟩] true =
      (.ok 200 (),
        ⟨some ⟨[wStudent], [("2024-01-01", [⟨"999", "present", "Unknown"⟩])]⟩,
         .stored ⟨some [wStudent], some [("2024-01-01", [⟨"999", "present", "Unknown"⟩])]⟩⟩) :=
  ⟨by decide, by decide⟩

/-- C3 amended: in the nested variant of src/server.js a shape-valid
entry whose roll number matches no roster student is silently omitted:
the call still succeeds, the stored bucket is the enrichment of the
request list, that enrichment is unchanged by first discarding the
unknown items, and every stored entry references a roster student.  In
the flat cached variant unknown items are not dropped: the call
succeeds and stores every item, enriching unknown ones with the name
Unknown, so the stored bucket keeps the request length. -/
theorem c3_unknown_entries
    (st : Nested.NState) (stF : FlatV1.FState) (subject date : String)
    (body : List RawEntry) (e : AttEntry)
    (hd : matchesDate date = true) (hs : ¬ subject = "") (hb : body.all entryShapeOk = true)
    (hbF : body.all FlatV1.shapeOk1 = true)
    (he : e ∈ Nested.enrichN (Nested.docOf st).students body) :
    ((Nested.setAttendance st subject date body true).1 = .ok 200 () ∧
     Nested.bucketOf (Nested.docOf (Nested.setAttendance st subject date body true).2)
         subject date =
       Nested.enrichN (Nested.docOf st).students body ∧
     Nested.enrichN (Nested.docOf st).students body =
       Nested.enrichN (Nested.docOf st).students
         (body.filter (fun a =>
           ((Nested.docOf st).students.find? (fun s => s.roll_no = a.roll_no)).isSome)) ∧
     ∃ s ∈ (Nested.docOf st).students, s.roll_no = e.roll_no) ∧
    ((FlatV1.setAttendance stF date body true).1 = .ok 200 () ∧
     (alookup date (flatSetDoc (flatEffDoc stF) date body).attendance).getD [] =
       FlatV1.enrich1 (flatEffDoc stF).students body ∧
     (FlatV1.setAttendance stF date body true).2.file =
       .stored (FlatV1.rawOf (flatSetDoc (flatEffDoc stF) date body)) ∧
     (FlatV1.enrich1 (flatEffDoc stF).students body).length = body.length) := by
  have h1 := nested_setAttendance_eq st subject date body hd hs hb
  have h2 := flat_setAttendance_eq stF date body hd hbF
  refine ⟨⟨by rw [h1], ?_, enrichN_filter _ _, enrichN_mem _ _ e he⟩,
    ⟨by rw [h2], ?_, by rw [h2], by simp [FlatV1.enrich1]⟩⟩
  · rw [h1]
    show Nested.bucketOf (Nested.docOf ⟨_, _⟩) subject date = _
    simp only [Nested.docOf, nested_loadResult_raw]
    unfold Nested.bucketOf nestedSetDoc
    simp only [alookup_aset_self, Option.some_bind, Option.getD_some]
  · unfold flatSetDoc
    simp only [alookup_aset_self, Option.getD_some]

/-- C3 witness: the amended theorem applied at a concrete state whose
roster knows roll number 001 but not 999. -/
theorem c3_witness :
    (Nested.setAttendance wNState "Physics" "2024-01-01"
        [⟨"001", "present"⟩, ⟨"999", "absent"⟩] true).1 = .ok 200 () ∧
    (∃ s ∈ (Nested.docOf wNState).students, s.roll_no = "001") := by
  have h := c3_unknown_entries wNState ⟨some ⟨[wStudent], []⟩, .missing⟩ "Physics" "2024-01-01"
    [⟨"001", "present"⟩, ⟨"999", "absent"⟩] ⟨"001", "present", "Alice"⟩
    (by decide) (by decide) (by decide) (by decide) (by decide)
  exact ⟨h.1.1, h.1.2.2.2⟩

/-! ## Claim C5: deleting a student cascades into every bucket -/

theorem filter_length_eq_iff_all {α : Type} (p : α → Bool) (l : List α) :
    (l.filter p).length = l.length ↔ l.all p = true := by
  induction l with
  | nil => simp
  | cons a rest ih =>
    rw [List.filter_cons, List.all_cons]
    cases hp : p a with
    | true => simp [ih]
    | false =>
      simp only [Bool.false_eq_true, if_false, List.length_cons, Bool.false_and]
      constructor
      · intro h
        have := List.length_filter_le p rest
        omega
      · intro h
        exact absurd h (by simp)

/-- Computation lemma: when some student carries the roll number and
the write succeeds, the delete handler returns 200 and stores the
doubly filtered document in its single save. -/
theorem nested_removeStudent_eq (st : Nested.NState) (roll : String)
    (hex : ¬ ((Nested.docOf st).students.filter
        (fun s => !(s.roll_no = roll : Bool))).length = (Nested.docOf st).students.length) :
    Nested.removeStudent st roll true =
      (.ok 200 (),
        ⟨some (nestedRemoveDoc (Nested.docOf st) roll),
         .stored (Nested.rawOf (nestedRemoveDoc (Nested.docOf st) roll))⟩) := by
  cases hf : st.file <;>
    simp only [Nested.docOf, Nested.loadResultN, hf] at hex ⊢
  case corrupt => exact absurd (by simp) hex
  case missing => exact absurd (by simp) hex
  case stored r =>
    simp [Nested.removeStudent, Nested.loadData, Nested.saveData, nestedRemoveDoc,
      Nested.docOf, Nested.loadResultN, hf, hex]

theorem bucketOf_removeDoc (d : Nested.NDoc) (roll subject date : String) :
    Nested.bucketOf (nestedRemoveDoc d roll) subject date =
      (Nested.bucketOf d subject date).filter (fun att => !(att.roll_no = roll : Bool)) := by
  unfold Nested.bucketOf nestedRemoveDoc
  simp only
  rw [show (fun sp : String × Nested.DateMap =>
      (sp.1, sp.2.map (fun dp => (dp.1, dp.2.filter (fun att => !(att.roll_no = roll : Bool)))))) =
      (fun sp : String × Nested.DateMap =>
      (sp.1, (fun m : Nested.DateMap =>
        m.map (fun dp => (dp.1, dp.2.filter (fun att => !(att.roll_no = roll : Bool))))) sp.2))
    from rfl]
  rw [alookup_map_value]
  cases hsub : alookup subject d.attendance with
  | none => simp
  | some dm =>
    simp only [Option.map_some', Option.some_bind]
    rw [show (fun dp : String × Bucket =>
        (dp.1, dp.2.filter (fun att => !(att.roll_no = roll : Bool)))) =
        (fun dp : String × Bucket =>
        (dp.1, (fun b : Bucket => b.filter (fun att => !(att.roll_no = roll : Bool))) dp.2))
      from rfl]
    rw [alookup_map_value]
    cases hdate : alookup date dm with
    | none => simp
    | some es => simp

/-- The document produced by a successful flat student deletion. -/
def flatRemoveDoc (d : FlatV1.FDoc) (roll : String) : FlatV1.FDoc :=
  ⟨d.students.filter (fun s => !(s.roll_no = roll : Bool)),
   (d.attendance.map (fun dp =>
     (dp.1, dp.2.filter (fun att => !(att.roll_no = roll : Bool)))))⟩

/-- Computation lemma: when some student carries the roll number and
the write succeeds, the flat delete handler returns 200 and stores the
doubly filtered document. -/
theorem flat_removeStudent_eq (st : FlatV1.FState) (roll : String)
    (hex : ¬ ((flatEffDoc st).students.filter
        (fun s => !(s.roll_no = roll : Bool))).length = (flatEffDoc st).students.length) :
    FlatV1.removeStudent st roll true =
      (.ok 200 (),
        ⟨some (flatRemoveDoc (flatEffDoc st) roll),
         .stored (FlatV1.rawOf (flatRemoveDoc (flatEffDoc st) roll))⟩) := by
  cases hc : st.cache with
  | some d =>
    simp only [flatEffDoc, hc] at hex
    simp [FlatV1.removeStudent, FlatV1.loadData, flatEffDoc, flatRemoveDoc, hc, hex]
  | none =>
    cases hf : st.file <;>
      simp only [flatEffDoc, hc, hf] at hex ⊢
    · exact absurd (by simp) hex
    · exact absurd (by simp) hex
    · simp [FlatV1.removeStudent, FlatV1.loadData, flatRemoveDoc, hc, hf, hex]

theorem flat_bucket_removeDoc (d : FlatV1.FDoc) (roll date : String) :
    (alookup date (flatRemoveDoc d roll).attendance).getD [] =
      ((alookup date d.attendance).getD []).filter
        (fun att => !(att.roll_no = roll : Bool)) := by
  unfold flatRemoveDoc
  simp only
  rw [show (fun dp : String × Bucket =>
      (dp.1, dp.2.filter (fun att => !(att.roll_no = roll : Bool)))) =
      (fun dp : String × Bucket =>
      (dp.1, (fun b : Bucket => b.filter (fun att => !(att.roll_no = roll : Bool))) dp.2))
    from rfl]
  rw [alookup_map_value]
  cases h : alookup date d.attendance <;> simp

/-- C5 counterexample: in the metrics variant deleting a student
answers 200 yet leaves the attendance store untouched, so a subsequent
attendance read for the date still returns the entry of the deleted
student, roll number included.  This refutes the claim that removing a
student also removes every attendance entry with that roll number from
every attendance bucket. -/
theorem c5_counterexample :
    MetricsV.removeStudent
        ⟨[⟨"001", "Alice"⟩], [("2024-01-01", [⟨"001", "Alice", "present"⟩])]⟩ "001" true
        ⟨[], []⟩ =
      (.ok 200 (), ⟨[], [("2024-01-01", [⟨"001", "Alice", "present"⟩])]⟩) ∧
    MetricsV.getAttendance
        (MetricsV.removeStudent
          ⟨[⟨"001", "Alice"⟩], [("2024-01-01", [⟨"001", "Alice", "present"⟩])]⟩ "001" true
          ⟨[], []⟩).2 "2024-01-01" =
      .ok 200 [⟨"001", "Alice", "present"⟩] ∧
    (⟨"001", "Alice", "present"⟩ : MetricsV.MEntry).roll_no = "001" :=
  ⟨by decide, by decide, by decide⟩

/-- C5 amended: in src/server.js deleting a roll number carried by no
student answers 404 and leaves the observable document unchanged;
deleting an existing roll number removes the student from the roster
and filters every entry with that roll number out of every
subject-and-date bucket, persists both changes in the one stored
document of its single save, and afterwards no bucket read contains an
entry with that roll number; the flat cached variant behaves the same
way over its per-date buckets.  The metrics variant, however, does NOT
cascade: its delete handler filters only the students variable and
never touches the attendance store, so after a successful deletion the
attendance read for any date returns exactly what it returned before,
deleted roll number included. -/
theorem c5_removeStudent_cascades
    (st : Nested.NState) (stF : FlatV1.FState) (roll : String) (w : Bool)
    (subject date : String) (e : AttEntry) :
    ((Nested.docOf st).students.all (fun s => !(s.roll_no = roll : Bool)) = true →
      (Nested.removeStudent st roll w).1 = .fail 404 ∧
      Nested.docOf (Nested.removeStudent st roll w).2 = Nested.docOf st) ∧
    (¬ (Nested.docOf st).students.all (fun s => !(s.roll_no = roll : Bool)) = true →
      (Nested.removeStudent st roll true).1 = .ok 200 () ∧
      (Nested.removeStudent st roll true).2.file =
        .stored (Nested.rawOf (nestedRemoveDoc (Nested.docOf st) roll)) ∧
      (Nested.docOf (Nested.removeStudent st roll true).2).students =
        (Nested.docOf st).students.filter (fun s => !(s.roll_no = roll : Bool)) ∧
      Nested.bucketOf (Nested.docOf (Nested.removeStudent st roll true).2) subject date =
        (Nested.bucketOf (Nested.docOf st) subject date).filter
          (fun att => !(att.roll_no = roll : Bool)) ∧
      (e ∈ Nested.bucketOf (Nested.docOf (Nested.removeStudent st roll true).2) subject date →
        ¬ e.roll_no = roll)) ∧
    ((flatEffDoc stF).students.all (fun s => !(s.roll_no = roll : Bool)) = true →
      (FlatV1.removeStudent stF roll true).1 = .fail 404 ∧
      flatEffDoc (FlatV1.removeStudent stF roll true).2 = flatEffDoc stF) ∧
    (¬ (flatEffDoc stF).students.all (fun s => !(s.roll_no = roll : Bool)) = true →
      (FlatV1.removeStudent stF roll true).1 = .ok 200 () ∧
      (FlatV1.removeStudent stF roll true).2.file =
        .stored (FlatV1.rawOf (flatRemoveDoc (flatEffDoc stF) roll)) ∧
      (flatRemoveDoc (flatEffDoc stF) roll).students =
        (flatEffDoc stF).students.filter (fun s => !(s.roll_no = roll : Bool)) ∧
      (alookup date (flatRemoveDoc (flatEffDoc stF) roll).attendance).getD [] =
        ((alookup date (flatEffDoc stF).attendance).getD []).filter
          (fun att => !(att.roll_no = roll : Bool)) ∧
      (e ∈ (alookup date (flatRemoveDoc (flatEffDoc stF) roll).attendance).getD [] →
        ¬ e.roll_no = roll)) ∧
    (∀ mst reload : MetricsV.MState,
      ¬ (mst.students.filter (fun s => !(s.roll_no = roll : Bool))).length =
          mst.students.length →
        MetricsV.removeStudent mst roll true reload =
          (.ok 200 (),
            ⟨mst.students.filter (fun s => !(s.roll_no = roll : Bool)), mst.attendance⟩) ∧
        MetricsV.getAttendance (MetricsV.removeStudent mst roll true reload).2 date =
          MetricsV.getAttendance mst date) := by
  refine ⟨?_, ?_, ?_, ?_, ?_⟩
  rotate_left 2
  · intro hall
    have hlen : ((flatEffDoc stF).students.filter
        (fun s => !(s.roll_no = roll : Bool))).length = (flatEffDoc stF).students.length :=
      (filter_length_eq_iff_all _ _).mpr hall
    cases hc : stF.cache with
    | some d =>
      simp only [flatEffDoc, hc] at hlen ⊢
      constructor <;>
        simp [FlatV1.removeStudent, FlatV1.loadData, flatEffDoc, hc, hlen]
    | none =>
      cases hf : stF.file <;>
        simp only [flatEffDoc, hc, hf] at hlen ⊢ <;>
        constructor <;>
        simp [FlatV1.removeStudent, FlatV1.loadData, flatEffDoc, FlatV1.rawOf, hc, hf, hlen]
  · intro hall
    have hlen : ¬ ((flatEffDoc stF).students.filter
        (fun s => !(s.roll_no = roll : Bool))).length = (flatEffDoc stF).students.length :=
      fun h => hall ((filter_length_eq_iff_all _ _).mp h)
    have h1 := flat_removeStudent_eq stF roll hlen
    refine ⟨by rw [h1], by rw [h1], rfl, flat_bucket_removeDoc _ _ _, ?_⟩
    intro hmem
    rw [flat_bucket_removeDoc] at hmem
    have h3 := (List.mem_filter.mp hmem).2
    simp at h3
    exact h3
  · intro mst reload hlen
    have hlt : (mst.students.filter (fun s => !(s.roll_no = roll : Bool))).length <
        mst.students.length :=
      Nat.lt_of_le_of_ne (List.length_filter_le _ _) hlen
    have h1 : MetricsV.removeStudent mst roll true reload =
        (.ok 200 (),
          ⟨mst.students.filter (fun s => !(s.roll_no = roll : Bool)), mst.attendance⟩) := by
      simp [MetricsV.removeStudent, hlt]
    refine ⟨h1, ?_⟩
    rw [h1]
    rfl
  · intro hall
    have hlen : ((Nested.docOf st).students.filter
        (fun s => !(s.roll_no = roll : Bool))).length = (Nested.docOf st).students.length :=
      (filter_length_eq_iff_all _ _).mpr hall
    cases hf : st.file <;>
      simp only [Nested.docOf, Nested.loadResultN, hf] at hlen ⊢ <;>
      cases w <;>
      constructor <;>
      simp [Nested.removeStudent, Nested.loadData, Nested.docOf, Nested.loadResultN,
        Nested.rawOf, hf, hlen]
  · intro hall
    have hlen : ¬ ((Nested.docOf st).students.filter
        (fun s => !(s.roll_no = roll : Bool))).length = (Nested.docOf st).students.length :=
      fun h => hall ((filter_length_eq_iff_all _ _).mp h)
    have h1 := nested_removeStudent_eq st roll hlen
    have hpost : Nested.docOf (Nested.removeStudent st roll true).2 =
        nestedRemoveDoc (Nested.docOf st) roll := by
      rw [h1]
      rfl
    refine ⟨by rw [h1], by rw [h1], by rw [hpost]; rfl, ?_, ?_⟩
    · rw [hpost, bucketOf_removeDoc]
    · rw [hpost, bucketOf_removeDoc]
      intro hmem
      have h3 := (List.mem_filter.mp hmem).2
      simp at h3
      exact h3

/-- C5 witness: deleting roll number 001 from a document that records
it on two dates leaves both buckets free of it. -/
theorem c5_witness :
    (Nested.removeStudent
        ⟨none, .stored ⟨some [wStudent],
          some [("Physics", [("2024-01-01", [⟨"001", "present", "Alice"⟩]),
                             ("2024-01-02", [⟨"001", "absent", "Alice"⟩])])]⟩⟩
        "001" true).1 = .ok 200 () ∧
    Nested.bucketOf
        (Nested.docOf (Nested.removeStudent
          ⟨none, .stored ⟨some [wStudent],
            some [("Physics", [("2024-01-01", [⟨"001", "present", "Alice"⟩]),
                               ("2024-01-02", [⟨"001", "absent", "Alice"⟩])])]⟩⟩
          "001" true).2) "Physics" "2024-01-01" = [] := by
  have h := c5_removeStudent_cascades
    ⟨none, .stored ⟨some [wStudent],
      some [("Physics", [("2024-01-01", [⟨"001", "present", "Alice"⟩]),
                         ("2024-01-02", [⟨"001", "absent", "Alice"⟩])])]⟩⟩
    ⟨none, .missing⟩
    "001" true "Physics" "2024-01-01" ⟨"001", "present", "Alice"⟩
  have h2 := h.2.1 (by decide)
  refine ⟨h2.1, ?_⟩
  rw [h2.2.2.2.1]
  decide

/-! ## Claim C6: add-student validation and the roster invariants -/

/-- The roster invariant: sorted by roll number and duplicate-free. -/
def rosterInv (d : Nested.NDoc) : Prop :=
  d.students.Pairwise Nested.rollLE ∧ (d.students.map Student.roll_no).Nodup

/-- Computation lemma: on valid non-duplicate input with a succeeding
write, the add handler returns 201 with the created record and stores
the re-sorted roster. -/
theorem nested_addStudent_eq (st : Nested.NState) (roll name : String)
    (course : Option String)
    (hr : ¬ roll = "") (hn : ¬ name = "")
    (hdup : ((Nested.docOf st).students.find? (fun s => s.roll_no = roll)).isSome = false) :
    Nested.addStudent st roll name course true =
      (.ok 201 ⟨roll, name, Nested.courseOrNA course⟩,
        ⟨some (nestedAddDoc (Nested.docOf st) roll name course),
         .stored (Nested.rawOf (nestedAddDoc (Nested.docOf st) roll name course))⟩) := by
  cases hf : st.file <;>
    simp only [Nested.docOf, Nested.loadResultN, hf] at hdup ⊢ <;>
    simp [Nested.addStudent, Nested.loadData, Nested.saveData, nestedAddDoc,
      Nested.docOf, Nested.loadResultN, hf, hr, hn, hdup]

/-- Every path of the add handler leaves the observable document
unchanged or, when the roll number is fresh and everything succeeds,
stores the sorted extended roster. -/
theorem nested_addStudent_doc_cases (st : Nested.NState) (roll name : String)
    (course : Option String) (w : Bool) :
    Nested.docOf (Nested.addStudent st roll name course w).2 = Nested.docOf st ∨
    (((Nested.docOf st).students.find? (fun s => s.roll_no = roll)).isSome = false ∧
     Nested.docOf (Nested.addStudent st roll name course w).2 =
       nestedAddDoc (Nested.docOf st) roll name course) := by
  by_cases hv : roll = "" ∨ name = ""
  · left
    simp [Nested.addStudent, hv]
  · by_cases hdup : ((Nested.docOf st).students.find? (fun s => s.roll_no = roll)).isSome = true
    · left
      cases hf : st.file <;>
        simp only [Nested.docOf, Nested.loadResultN, hf] at hdup ⊢
      · exact absurd hdup (by simp)
      · exact absurd hdup (by simp)
      · cases w <;>
        simp [Nested.addStudent, Nested.loadData, Nested.saveData, Nested.docOf,
          Nested.loadResultN, Nested.rawOf, hf, hv, hdup]
    · rw [Bool.not_eq_true] at hdup
      rw [← Bool.not_eq_true] at hdup
      simp only [Bool.not_eq_true] at hdup
      cases w
      · left
        cases hf : st.file <;>
          simp only [Nested.docOf, Nested.loadResultN, hf] at hdup ⊢ <;>
          simp [Nested.addStudent, Nested.loadData, Nested.saveData, Nested.docOf,
            Nested.loadResultN, Nested.rawOf, hf, hv, hdup]
      · right
        refine ⟨hdup, ?_⟩
        push_neg at hv
        rw [nested_addStudent_eq st roll name course hv.1 hv.2 hdup]
        rfl

/-- Every path of the delete handler leaves the observable document
unchanged or stores the doubly filtered document. -/
theorem nested_removeStudent_doc_cases (st : Nested.NState) (roll : String) (w : Bool) :
    Nested.docOf (Nested.removeStudent st roll w).2 = Nested.docOf st ∨
    Nested.docOf (Nested.removeStudent st roll w).2 =
      nestedRemoveDoc (Nested.docOf st) roll := by
  by_cases hlen : ((Nested.docOf st).students.filter
      (fun s => !(s.roll_no = roll : Bool))).length = (Nested.docOf st).students.length
  · left
    cases hf : st.file <;>
      simp only [Nested.docOf, Nested.loadResultN, hf] at hlen ⊢ <;>
      cases w <;>
      simp [Nested.removeStudent, Nested.loadData, Nested.saveData, Nested.docOf,
        Nested.loadResultN, Nested.rawOf, hf, hlen]
  · cases w
    · left
      cases hf : st.file <;>
        simp only [Nested.docOf, Nested.loadResultN, hf] at hlen ⊢ <;>
        simp [Nested.removeStudent, Nested.loadData, Nested.saveData, Nested.docOf,
          Nested.loadResultN, Nested.rawOf, hf, hlen]
    · right
      rw [nested_removeStudent_eq st roll hlen]
      rfl

/-- The attendance handler never changes the roster, along any path. -/
theorem nested_setAttendance_students (st : Nested.NState) (subject date : String)
    (body : List RawEntry) (w : Bool) :
    (Nested.docOf (Nested.setAttendance st subject date body w).2).students =
      (Nested.docOf st).students := by
  by_cases hd : matchesDate date = false
  · simp [Nested.setAttendance, hd]
  · by_cases hs : subject = ""
    · simp [Nested.setAttendance, hd, hs]
    · by_cases hb : body.all entryShapeOk = true
      · cases hf : st.file <;>
          cases w <;>
          simp [Nested.setAttendance, Nested.loadData, Nested.saveData, Nested.docOf,
            Nested.loadResultN, Nested.rawOf, hf, hd, hs, hb]
      · cases hf : st.file <;>
          simp [Nested.setAttendance, Nested.loadData, Nested.saveData, Nested.docOf,
            Nested.loadResultN, Nested.rawOf, hf, hd, hs, hb]

theorem rosterInv_addDoc (d : Nested.NDoc) (roll name : String) (course : Option String)
    (hinv : rosterInv d)
    (hdup : (d.students.find? (fun s => s.roll_no = roll)).isSome = false) :
    rosterInv (nestedAddDoc d roll name course) := by
  constructor
  · exact List.sorted_insertionSort Nested.rollLE _
  · have hperm : List.Perm
        (List.insertionSort Nested.rollLE
          (d.students ++ [⟨roll, name, Nested.courseOrNA course⟩]))
        (d.students ++ [⟨roll, name, Nested.courseOrNA course⟩]) :=
      List.perm_insertionSort Nested.rollLE _
    have hnotin : roll ∉ d.students.map Student.roll_no := by
      intro hmem
      rw [List.mem_map] at hmem
      obtain ⟨s, hs, hroll⟩ := hmem
      have hnone : d.students.find? (fun s => s.roll_no = roll) = none := by
        cases hfind : d.students.find? (fun s => s.roll_no = roll) with
        | none => rfl
        | some s2 => rw [hfind] at hdup; simp at hdup
      rw [List.find?_eq_none] at hnone
      exact hnone s hs (by simp [hroll])
    have : (d.students ++ [(⟨roll, name, Nested.courseOrNA course⟩ : Student)]).map
        Student.roll_no = d.students.map Student.roll_no ++ [roll] := by
      simp
    refine ((hperm.map Student.roll_no).nodup_iff).mpr ?_
    rw [this]
    rw [List.nodup_append]
    exact ⟨hinv.2, List.nodup_singleton roll, by
      intro x hx
      simp only [List.mem_singleton]
      intro hxr
      exact hnotin (hxr ▸ hx)⟩

theorem rosterInv_removeDoc (d : Nested.NDoc) (roll : String) (hinv : rosterInv d) :
    rosterInv (nestedRemoveDoc d roll) := by
  constructor
  · exact List.Pairwise.filter _ hinv.1
  · exact ((List.filter_sublist d.students).map Student.roll_no).nodup hinv.2

/-- C6 counterexample: the add-student endpoint of the metrics variant
stores the record without any course field and appends it without
re-sorting, so adding roll number 1 to a roster holding roll number 2
answers 201 and leaves the roster out of roll-number order.  This
refutes the claims that the course of the created record defaults to N/A,
that the roster is re-sorted on insertion, and that roster sortedness
is preserved by every operation. -/
theorem c6_counterexample :
    MetricsV.addStudent ⟨[⟨"2", "Bob"⟩], []⟩ "1" "Alice" true =
      (.ok 201 ⟨"1", "Alice"⟩, ⟨[⟨"2", "Bob"⟩, ⟨"1", "Alice"⟩], []⟩) ∧
    (MetricsV.addStudent ⟨[⟨"2", "Bob"⟩], []⟩ "1" "Alice" true).2.students.map
        MetricsV.MStudent.roll_no = ["2", "1"] ∧
    strLe "2" "1" = false :=
  ⟨by decide, by decide, by decide⟩

/-- C6 amended: in src/server.js the add handler rejects a missing
roll number or name with 400 before touching the store, leaving the
state fully unchanged; rejects a duplicate roll number with 400 leaving
the observable document unchanged; on success it returns 201 with the
created record, whose course defaults to N/A, and persists the
re-sorted extended roster with the attendance untouched; and the roster
invariants, sortedness by roll number and uniqueness of roll numbers,
are preserved by every path of all three mutating handlers of that
variant.  The add handler of the metrics variant performs the same
presence and duplicate checks, but on success it stores a record of
roll number and name only, with no course field and hence no course
default, appending it to the roster without any sort. -/
theorem c6_addStudent_and_invariants
    (st : Nested.NState) (roll rollV name nameV subject date : String)
    (course courseV : Option String) (body : List RawEntry) (w : Bool)
    (hv : rollV = "" ∨ nameV = "")
    (hr : ¬ roll = "") (hn : ¬ name = "")
    (hinv : rosterInv (Nested.docOf st)) :
    Nested.addStudent st rollV nameV courseV w = (.fail 400, st) ∧
    (((Nested.docOf st).students.find? (fun s => s.roll_no = roll)).isSome = true →
      (Nested.addStudent st roll name course w).1 = .fail 400 ∧
      Nested.docOf (Nested.addStudent st roll name course w).2 = Nested.docOf st) ∧
    (((Nested.docOf st).students.find? (fun s => s.roll_no = roll)).isSome = false →
      (Nested.addStudent st roll name course true).1 =
        .ok 201 ⟨roll, name, Nested.courseOrNA course⟩ ∧
      (Nested.docOf (Nested.addStudent st roll name course true).2).students =
        (List.insertionSort Nested.rollLE
          ((Nested.docOf st).students ++ [⟨roll, name, Nested.courseOrNA course⟩])) ∧
      (Nested.docOf (Nested.addStudent st roll name course true).2).attendance =
        (Nested.docOf st).attendance) ∧
    rosterInv (Nested.docOf (Nested.addStudent st roll name course w).2) ∧
    rosterInv (Nested.docOf (Nested.removeStudent st roll w).2) ∧
    rosterInv (Nested.docOf (Nested.setAttendance st subject date body w).2) ∧
    (∀ (mst : MetricsV.MState) (r n : String), ¬ r = "" → ¬ n = "" →
      mst.students.any (fun s => s.roll_no = r) = false →
      MetricsV.addStudent mst r n true =
        (.ok 201 ⟨r, n⟩, ⟨mst.students ++ [⟨r, n⟩], mst.attendance⟩)) := by
  refine ⟨by simp [Nested.addStudent, hv], ?_, ?_, ?_, ?_, ?_, ?_⟩
  · intro hdup
    cases hf : st.file <;>
      simp only [Nested.docOf, Nested.loadResultN, hf] at hdup ⊢
    · exact absurd hdup (by simp)
    · exact absurd hdup (by simp)
    · cases w <;>
      simp [Nested.addStudent, Nested.loadData, Nested.saveData, Nested.docOf,
        Nested.loadResultN, Nested.rawOf, hf, hr, hn, hdup]
  · intro hdup
    rw [nested_addStudent_eq st roll name course hr hn hdup]
    refine ⟨rfl, ?_, ?_⟩ <;> rfl
  · rcases nested_addStudent_doc_cases st roll name course w with h | ⟨hdup, h⟩
    · rw [h]; exact hinv
    · rw [h]; exact rosterInv_addDoc _ roll name course hinv hdup
  · rcases nested_removeStudent_doc_cases st roll w with h | h
    · rw [h]; exact hinv
    · rw [h]; exact rosterInv_removeDoc _ roll hinv
  · constructor
    · rw [show (Nested.docOf (Nested.setAttendance st subject date body w).2).students.Pairwise
          Nested.rollLE =
          (Nested.docOf st).students.Pairwise Nested.rollLE from by
        rw [nested_setAttendance_students]]
      exact hinv.1
    · rw [show (Nested.docOf (Nested.setAttendance st subject date body w).2).students.map
          Student.roll_no = (Nested.docOf st).students.map Student.roll_no from by
        rw [nested_setAttendance_students]]
      exact hinv.2
  · intro mst r n hr2 hn2 hany
    simp [MetricsV.addStudent, hr2, hn2, hany]

/-- C6 witness: the theorem applied at a concrete one-student state,
showing the 400 on missing input and the 201 with re-sorted roster on
success. -/
theorem c6_witness :
    Nested.addStudent wNState "" "Carol" none true = (.fail 400, wNState) ∧
    (Nested.addStudent wNState "000" "Carol" none true).1 =
      .ok 201 ⟨"000", "Carol", "N/A"⟩ ∧
    (Nested.docOf (Nested.addStudent wNState "000" "Carol" none true).2).students =
      [⟨"000", "Carol", "N/A"⟩, wStudent] := by
  have h := c6_addStudent_and_invariants wNState "000" "" "Carol" "Carol" "Physics"
    "2024-01-01" none none [] true (Or.inl rfl) (by decide) (by decide)
    (by constructor <;> decide)
  have h3 := h.2.2.1 (by decide)
  refine ⟨h.1, h3.1, ?_⟩
  rw [h3.2.1]
  decide

/-! ## Claim C8: load and the cache -/

/-- C8 counterexample: in src/server.js the cache is present yet
loadData returns the document parsed from the file, not the cached one;
the comment in the source says the read is forced deliberately.  This
refutes the claim that load returns the cached document without
re-reading the backing file whenever the cache is present. -/
theorem c8_counterexample :
    (Nested.loadData ⟨some ⟨[wStudent], []⟩, .stored ⟨some [], some []⟩⟩ true).1 =
      (⟨[], []⟩ : Nested.NDoc) ∧
    ¬ (Nested.loadData ⟨some ⟨[wStudent], []⟩, .stored ⟨some [], some []⟩⟩ true).1 =
      (⟨[wStudent], []⟩ : Nested.NDoc) :=
  ⟨by decide, by decide⟩

/-- C8 amended: in the flat cached variant load returns the cached
document when present, with the state unchanged and the result
independent of the file; on a cache miss it reads the file and
backfills an absent students or attendance substructure with the empty
defaults.  In the src/server.js variant load always re-reads the
backing file, ignoring the cache entirely, and performs the same
backfill. -/
theorem c8_load_cache_and_backfill
    (d : FlatV1.FDoc) (f : JFile FlatV1.RawFDoc) (c : Option Nested.NDoc)
    (fN : JFile Nested.RawNDoc)
    (sOpt : Option (List Student)) (aOpt : Option (List (String × Bucket)))
    (sN : Option (List Student)) (aN : Option Nested.SubjMap) (w : Bool) :
    FlatV1.loadData ⟨some d, f⟩ w = (some d, ⟨some d, f⟩) ∧
    FlatV1.loadData ⟨none, .stored ⟨sOpt, aOpt⟩⟩ w =
      (some ⟨sOpt.getD [], aOpt.getD []⟩,
        ⟨some ⟨sOpt.getD [], aOpt.getD []⟩, .stored ⟨sOpt, aOpt⟩⟩) ∧
    (Nested.loadData ⟨c, fN⟩ w).1 = Nested.loadResultN fN ∧
    (Nested.loadData ⟨c, .stored ⟨sN, aN⟩⟩ w).1 =
      (⟨sN.getD [], aN.getD []⟩ : Nested.NDoc) := by
  refine ⟨rfl, rfl, ?_, rfl⟩
  cases fN <;> rfl

/-! ## The metrics computation: counting lemmas shared by C7 and C9 -/

/-- Spec-side definition: the entries of a bucket whose roll number
belongs to the current roster. -/
def validOf (studs : List MetricsV.MStudent) (es : List MetricsV.MEntry) :
    List MetricsV.MEntry :=
  es.filter (fun e => studs.any (fun s => s.roll_no = e.roll_no))

/-- Spec-side definition: how many entries of a list are marked
present. -/
def presentCountOf (es : List MetricsV.MEntry) : Nat :=
  es.countP (fun e => e.status = "present")

/-- Spec-side definition of the per-day rate: present over valid times
one hundred, and zero for a day with no valid entries. -/
def rateOf (studs : List MetricsV.MStudent) (att : List (String × List MetricsV.MEntry))
    (d : String) : ℚ :=
  let vs := validOf studs ((alookup d att).getD [])
  if vs.length = 0 then 0 else (presentCountOf vs : ℚ) / (vs.length : ℚ) * 100

/-- The membership test the inner loop performs against the metrics
object. -/
def knownIn (m : List (String × MetricsV.SMet)) (e : MetricsV.MEntry) : Bool :=
  (alookup e.roll_no m).isSome

theorem procEntry_keys (a : MetricsV.Acc) (e : MetricsV.MEntry) :
    (MetricsV.procEntry a e).metrics.map Prod.fst = a.metrics.map Prod.fst := by
  unfold MetricsV.procEntry
  cases h : alookup e.roll_no a.metrics with
  | none => rfl
  | some v =>
    by_cases hp : e.status = "present"
    · simp [hp, aupdate_keys]
    · by_cases hab : e.status = "absent" <;> simp [hp, hab, aupdate_keys]

theorem alookup_isSome_congr {β : Type} {m1 m2 : List (String × β)}
    (h : m1.map Prod.fst = m2.map Prod.fst) (k : String) :
    (alookup k m1).isSome = (alookup k m2).isSome := by
  have h1 := alookup_isSome_iff_mem k m1
  have h2 := alookup_isSome_iff_mem k m2
  rw [h] at h1
  cases ha : (alookup k m1).isSome <;> cases hb : (alookup k m2).isSome <;> try rfl
  · rw [ha] at h1
    rw [hb] at h2
    exact h1.mpr (h2.mp rfl)
  · rw [ha] at h1
    rw [hb] at h2
    exact (h2.mpr (h1.mp rfl)).symm

/-- The inner loop of calculateMetrics counts exactly the entries whose
roll number is a key of the metrics object: joint characterization of
all four counters together with preservation of the key set. -/
theorem foldl_procEntry_spec (es : List MetricsV.MEntry) : ∀ a : MetricsV.Acc,
    (es.foldl MetricsV.procEntry a).metrics.map Prod.fst = a.metrics.map Prod.fst ∧
    (es.foldl MetricsV.procEntry a).validCount =
      a.validCount + (es.filter (knownIn a.metrics)).length ∧
    (es.foldl MetricsV.procEntry a).presentCount =
      a.presentCount + (es.filter (knownIn a.metrics)).countP (fun e => e.status = "present") ∧
    (es.foldl MetricsV.procEntry a).totalRecords =
      a.totalRecords + (es.filter (knownIn a.metrics)).length ∧
    (es.foldl MetricsV.procEntry a).totalPresent =
      a.totalPresent + (es.filter (knownIn a.metrics)).countP (fun e => e.status = "present") := by
  induction es with
  | nil => intro a; simp
  | cons e rest ih =>
    intro a
    rw [List.foldl_cons]
    cases hk : alookup e.roll_no a.metrics with
    | none =>
      have hpe : MetricsV.procEntry a e = a := by
        unfold MetricsV.procEntry
        rw [hk]
      have hfe : knownIn a.metrics e = false := by
        unfold knownIn
        rw [hk]
        rfl
      rw [List.filter_cons, hfe]
      simp only [Bool.false_eq_true, if_false]
      rw [hpe]
      exact ih a
    | some v =>
      obtain ⟨ihk, ihv, ihp, ihr, ihtp⟩ := ih (MetricsV.procEntry a e)
      have hcong : rest.filter (knownIn (MetricsV.procEntry a e).metrics) =
          rest.filter (knownIn a.metrics) :=
        List.filter_congr (fun x _ => by
          unfold knownIn
          rw [alookup_isSome_congr (procEntry_keys a e) x.roll_no])
      rw [hcong] at ihv ihp ihr ihtp
      have hfe : knownIn a.metrics e = true := by
        unfold knownIn
        rw [hk]
        rfl
      rw [List.filter_cons, hfe, if_pos rfl, List.countP_cons]
      have hpv : (MetricsV.procEntry a e).validCount = a.validCount + 1 := by
        unfold MetricsV.procEntry
        rw [hk]
        by_cases hp : e.status = "present"
        · simp [hp]
        · by_cases hab : e.status = "absent" <;> simp [hp, hab]
      have hpr : (MetricsV.procEntry a e).totalRecords = a.totalRecords + 1 := by
        unfold MetricsV.procEntry
        rw [hk]
        by_cases hp : e.status = "present"
        · simp [hp]
        · by_cases hab : e.status = "absent" <;> simp [hp, hab]
      refine ⟨ihk.trans (procEntry_keys a e), ?_, ?_, ?_, ?_⟩
      · rw [ihv, hpv]
        simp only [List.length_cons]
        omega
      · rw [ihp]
        by_cases hp : e.status = "present"
        · have hpp : (MetricsV.procEntry a e).presentCount = a.presentCount + 1 := by
            unfold MetricsV.procEntry
            rw [hk]
            simp [hp]
          rw [hpp]
          simp [hp]
          omega
        · have hpp : (MetricsV.procEntry a e).presentCount = a.presentCount := by
            unfold MetricsV.procEntry
            rw [hk]
            by_cases hab : e.status = "absent" <;> simp [hp, hab]
          rw [hpp]
          simp [hp]
      · rw [ihr, hpr]
        simp only [List.length_cons]
        omega
      · rw [ihtp]
        by_cases hp : e.status = "present"
        · have hpp : (MetricsV.procEntry a e).totalPresent = a.totalPresent + 1 := by
            unfold MetricsV.procEntry
            rw [hk]
            simp [hp]
          rw [hpp]
          simp [hp]
          omega
        · have hpp : (MetricsV.procEntry a e).totalPresent = a.totalPresent := by
            unfold MetricsV.procEntry
            rw [hk]
            by_cases hab : e.status = "absent" <;> simp [hp, hab]
          rw [hpp]
          simp [hp]

/-- A roll number is a key of the initial metrics object exactly when
some roster student carries it. -/
theorem initMetrics_known (studs : List MetricsV.MStudent) (k : String) :
    (alookup k (MetricsV.initMetrics studs)).isSome =
      studs.any (fun s => s.roll_no = k) := by
  suffices h : ∀ m0 : List (String × MetricsV.SMet),
      (alookup k (studs.foldl (fun m s => aset s.roll_no ⟨s.name, 0, 0, 0⟩ m) m0)).isSome =
        ((alookup k m0).isSome || studs.any (fun s => s.roll_no = k)) by
    have h2 := h []
    rw [show alookup k ([] : List (String × MetricsV.SMet)) = none from rfl] at h2
    simpa [MetricsV.initMetrics] using h2
  induction studs with
  | nil => intro m0; simp
  | cons s rest ih =>
    intro m0
    rw [List.foldl_cons, List.any_cons, ih (aset s.roll_no ⟨s.name, 0, 0, 0⟩ m0)]
    by_cases hs : s.roll_no = k
    · rw [hs, alookup_aset_self]
      simp [hs]
    · rw [alookup_aset_ne (fun hh => hs hh.symm)]
      simp [hs]

/-- The entries the inner loop counts against the initial key set are
exactly the valid entries in the sense of the spec. -/
theorem filter_knownIn_init (studs : List MetricsV.MStudent)
    {m : List (String × MetricsV.SMet)}
    (hm : m.map Prod.fst = (MetricsV.initMetrics studs).map Prod.fst)
    (es : List MetricsV.MEntry) :
    es.filter (knownIn m) = validOf studs es := by
  apply List.filter_congr
  intro e _
  unfold knownIn
  rw [alookup_isSome_congr hm e.roll_no, initMetrics_known]

/-- The outer loop of calculateMetrics: over duplicate-free dates that
are fresh for the accumulated rates, it appends one labelled rate per
date, in order, and accumulates the overall totals of valid and present
entries, preserving the key set of the metrics object. -/
theorem foldl_procDate_spec (studs : List MetricsV.MStudent)
    (att : List (String × List MetricsV.MEntry)) (ds : List String) :
    ∀ a : MetricsV.DayAcc,
    a.metrics.map Prod.fst = (MetricsV.initMetrics studs).map Prod.fst →
    (∀ d ∈ ds, d ∉ a.dailyRates.map Prod.fst) →
    ds.Nodup →
    ((ds.foldl (MetricsV.procDate att) a).dailyRates =
       a.dailyRates ++ ds.map (fun d => (d, rateOf studs att d)) ∧
     (ds.foldl (MetricsV.procDate att) a).totalRecords =
       a.totalRecords +
         (ds.map (fun d => (validOf studs ((alookup d att).getD [])).length)).sum ∧
     (ds.foldl (MetricsV.procDate att) a).totalPresent =
       a.totalPresent +
         (ds.map (fun d => presentCountOf (validOf studs ((alookup d att).getD [])))).sum ∧
     (ds.foldl (MetricsV.procDate att) a).metrics.map Prod.fst =
       (MetricsV.initMetrics studs).map Prod.fst) := by
  induction ds with
  | nil => intro a ha _ _; simp [ha]
  | cons d rest ih =>
    intro a ha hfresh hnd
    rw [List.foldl_cons]
    obtain ⟨ik, iv, ip, ir, itp⟩ := foldl_procEntry_spec ((alookup d att).getD [])
      ⟨a.metrics, 0, 0, a.totalPresent, a.totalRecords⟩
    rw [show (⟨a.metrics, 0, 0, a.totalPresent, a.totalRecords⟩ : MetricsV.Acc).metrics =
        a.metrics from rfl] at ik iv ip ir itp
    rw [filter_knownIn_init studs ha] at iv ip ir itp
    have iv2 : (((alookup d att).getD []).foldl MetricsV.procEntry
        ⟨a.metrics, 0, 0, a.totalPresent, a.totalRecords⟩).validCount =
        (validOf studs ((alookup d att).getD [])).length := iv.trans (Nat.zero_add _)
    have ip2 : (((alookup d att).getD []).foldl MetricsV.procEntry
        ⟨a.metrics, 0, 0, a.totalPresent, a.totalRecords⟩).presentCount =
        presentCountOf (validOf studs ((alookup d att).getD [])) := ip.trans (Nat.zero_add _)
    have ir2 : (((alookup d att).getD []).foldl MetricsV.procEntry
        ⟨a.metrics, 0, 0, a.totalPresent, a.totalRecords⟩).totalRecords =
        a.totalRecords + (validOf studs ((alookup d att).getD [])).length := ir
    have itp2 : (((alookup d att).getD []).foldl MetricsV.procEntry
        ⟨a.metrics, 0, 0, a.totalPresent, a.totalRecords⟩).totalPresent =
        a.totalPresent + presentCountOf (validOf studs ((alookup d att).getD [])) := itp
    have hinner :
        MetricsV.procDate att a d =
          { metrics := (((alookup d att).getD []).foldl MetricsV.procEntry
              ⟨a.metrics, 0, 0, a.totalPresent, a.totalRecords⟩).metrics,
            dailyRates := a.dailyRates ++ [(d, rateOf studs att d)],
            totalPresent :=
              a.totalPresent + presentCountOf (validOf studs ((alookup d att).getD [])),
            totalRecords :=
              a.totalRecords + (validOf studs ((alookup d att).getD [])).length } := by
      simp only [MetricsV.procDate]
      rw [aset_fresh _ (hfresh d (List.mem_cons_self d rest))]
      rw [iv2, ip2, ir2, itp2]
      have hrate :
          (if (validOf studs ((alookup d att).getD [])).length > 0 then
            (presentCountOf (validOf studs ((alookup d att).getD [])) : ℚ) /
            ((validOf studs ((alookup d att).getD [])).length : ℚ) * 100
          else 0) = rateOf studs att d := by
        simp only [rateOf]
        by_cases hz : (validOf studs ((alookup d att).getD [])).length = 0
        · simp [hz]
        · rw [if_pos (by omega), if_neg hz]
      rw [hrate]
    rw [hinner]
    have hktrans : ((((alookup d att).getD []).foldl MetricsV.procEntry
        ⟨a.metrics, 0, 0, a.totalPresent, a.totalRecords⟩).metrics).map Prod.fst =
        (MetricsV.initMetrics studs).map Prod.fst := ik.trans ha
    obtain ⟨rk1, rk2, rk3, rk4⟩ := ih
      { metrics := (((alookup d att).getD []).foldl MetricsV.procEntry
          ⟨a.metrics, 0, 0, a.totalPresent, a.totalRecords⟩).metrics,
        dailyRates := a.dailyRates ++ [(d, rateOf studs att d)],
        totalPresent :=
          a.totalPresent + presentCountOf (validOf studs ((alookup d att).getD [])),
        totalRecords :=
          a.totalRecords + (validOf studs ((alookup d att).getD [])).length }
      hktrans
      (by
        intro d2 hd2
        simp only [List.map_append, List.mem_append, List.map_cons, List.map_nil,
          List.mem_singleton, not_or]
        refine ⟨hfresh d2 (List.mem_cons_of_mem d hd2), ?_⟩
        intro hdd
        rw [List.nodup_cons] at hnd
        exact hnd.1 (hdd ▸ hd2))
      ((List.nodup_cons.mp hnd).2)
    refine ⟨?_, ?_, ?_, rk4⟩
    · rw [rk1]
      simp [List.append_assoc]
    · rw [rk2]
      simp only [List.map_cons, List.sum_cons]
      omega
    · rw [rk3]
      simp only [List.map_cons, List.sum_cons]
      omega

theorem calculateMetrics_dailyRates_eq (st : MetricsV.MState) :
    (MetricsV.calculateMetrics st).dailyRates = (MetricsV.metricsAcc st).dailyRates := by
  simp only [MetricsV.calculateMetrics]
  cases h : (MetricsV.metricsAcc st).dailyRates <;> rfl

theorem calculateMetrics_avg_eq (st : MetricsV.MState) :
    (MetricsV.calculateMetrics st).avgAttendance =
      (if (MetricsV.metricsAcc st).totalRecords > 0 then
        ((MetricsV.metricsAcc st).totalPresent : ℚ) /
          ((MetricsV.metricsAcc st).totalRecords : ℚ) * 100
      else 0) := by
  simp only [MetricsV.calculateMetrics]
  cases h : (MetricsV.metricsAcc st).dailyRates <;> rfl

/-- The accumulator of calculateMetrics in spec terms: one labelled
rate per date in sorted key order, and totals that sum the valid and
present counts over all buckets. -/
theorem metricsAcc_spec (studs : List MetricsV.MStudent)
    (att : List (String × List MetricsV.MEntry)) (hnd : (att.map Prod.fst).Nodup) :
    (MetricsV.metricsAcc ⟨studs, att⟩).dailyRates =
      (List.insertionSort MetricsV.dateLE (att.map Prod.fst)).map
        (fun d => (d, rateOf studs att d)) ∧
    (MetricsV.metricsAcc ⟨studs, att⟩).totalRecords =
      (att.map (fun p => (validOf studs p.2).length)).sum ∧
    (MetricsV.metricsAcc ⟨studs, att⟩).totalPresent =
      (att.map (fun p => presentCountOf (validOf studs p.2))).sum := by
  have hperm : List.Perm (List.insertionSort MetricsV.dateLE (att.map Prod.fst))
      (att.map Prod.fst) := List.perm_insertionSort _ _
  have hnd2 : (List.insertionSort MetricsV.dateLE (att.map Prod.fst)).Nodup :=
    hperm.nodup_iff.mpr hnd
  obtain ⟨h1, h2, h3, _⟩ := foldl_procDate_spec studs att
    (List.insertionSort MetricsV.dateLE (att.map Prod.fst))
    ⟨MetricsV.initMetrics studs, [], 0, 0⟩ rfl (by simp) hnd2
  have hsum : ∀ f : List MetricsV.MEntry → Nat,
      ((att.map Prod.fst).map (fun d => f ((alookup d att).getD []))).sum =
        (att.map (fun p => f p.2)).sum := by
    intro f
    rw [List.map_map]
    congr 1
    apply List.map_congr_left
    intro p hp
    simp only [Function.comp]
    rw [alookup_of_mem_nodup hnd hp]
    rfl
  refine ⟨by simpa [MetricsV.metricsAcc] using h1, ?_, ?_⟩
  · calc (MetricsV.metricsAcc ⟨studs, att⟩).totalRecords
        = 0 + ((List.insertionSort MetricsV.dateLE (att.map Prod.fst)).map
            (fun d => (validOf studs ((alookup d att).getD [])).length)).sum := h2
      _ = ((List.insertionSort MetricsV.dateLE (att.map Prod.fst)).map
            (fun d => (validOf studs ((alookup d att).getD [])).length)).sum :=
          Nat.zero_add _
      _ = ((att.map Prod.fst).map
            (fun d => (validOf studs ((alookup d att).getD [])).length)).sum :=
          (hperm.map _).sum_eq
      _ = (att.map (fun p => (validOf studs p.2).length)).sum :=
          hsum (fun es => (validOf studs es).length)
  · calc (MetricsV.metricsAcc ⟨studs, att⟩).totalPresent
        = 0 + ((List.insertionSort MetricsV.dateLE (att.map Prod.fst)).map
            (fun d => presentCountOf (validOf studs ((alookup d att).getD [])))).sum := h3
      _ = ((List.insertionSort MetricsV.dateLE (att.map Prod.fst)).map
            (fun d => presentCountOf (validOf studs ((alookup d att).getD [])))).sum :=
          Nat.zero_add _
      _ = ((att.map Prod.fst).map
            (fun d => presentCountOf (validOf studs ((alookup d att).getD [])))).sum :=
          (hperm.map _).sum_eq
      _ = (att.map (fun p => presentCountOf (validOf studs p.2))).sum :=
          hsum (fun es => presentCountOf (validOf studs es))

/-! ## Claim C7: the metrics computation and division by zero -/

/-- C7: the metrics computation counts only entries whose roll number
matches a current student.  Every recorded daily rate equals the
present count over the valid count times one hundred, guarded to zero
when the day has no valid entries, and the overall average equals total
present over total valid times one hundred, guarded to zero when no
valid entries exist anywhere, so neither quotient is ever formed with a
zero denominator. -/
theorem c7_metrics_no_division_by_zero
    (studs : List MetricsV.MStudent) (att : List (String × List MetricsV.MEntry))
    (d : String) (r : ℚ)
    (hnd : (att.map Prod.fst).Nodup)
    (hdr : alookup d (MetricsV.calculateMetrics ⟨studs, att⟩).dailyRates = some r) :
    r = (if (validOf studs ((alookup d att).getD [])).length = 0 then 0
         else (presentCountOf (validOf studs ((alookup d att).getD [])) : ℚ) /
           ((validOf studs ((alookup d att).getD [])).length : ℚ) * 100) ∧
    (MetricsV.calculateMetrics ⟨studs, att⟩).avgAttendance =
      (if (att.map (fun p => (validOf studs p.2).length)).sum = 0 then 0
       else ((att.map (fun p => presentCountOf (validOf studs p.2))).sum : ℚ) /
         ((att.map (fun p => (validOf studs p.2).length)).sum : ℚ) * 100) := by
  obtain ⟨h1, h2, h3⟩ := metricsAcc_spec studs att hnd
  constructor
  · rw [calculateMetrics_dailyRates_eq, h1] at hdr
    rw [alookup_graph (rateOf studs att) d _ hdr]
    simp only [rateOf]
  · rw [calculateMetrics_avg_eq, h2, h3]
    by_cases hz : (att.map (fun p => (validOf studs p.2).length)).sum = 0
    · simp [hz]
    · rw [if_pos (by omega), if_neg hz]

/-- A one-student one-day document shared by several witnesses. -/
def mSt1 : MetricsV.MState :=
  ⟨[⟨"001", "Alice"⟩], [("2024-01-01", [⟨"001", "Alice", "present"⟩])]⟩

/-- C7 witness: the theorem applied at a concrete one-day document
whose only rate is one hundred. -/
theorem c7_witness :
    alookup "2024-01-01" (MetricsV.calculateMetrics mSt1).dailyRates = some 100 ∧
    (100 : ℚ) =
      (if (validOf mSt1.students ((alookup "2024-01-01" mSt1.attendance).getD [])).length = 0
       then 0
       else (presentCountOf (validOf mSt1.students
           ((alookup "2024-01-01" mSt1.attendance).getD [])) : ℚ) /
         ((validOf mSt1.students ((alookup "2024-01-01" mSt1.attendance).getD [])).length : ℚ) *
           100) :=
  ⟨by decide,
    (c7_metrics_no_division_by_zero mSt1.students mSt1.attendance "2024-01-01" 100
      (by decide) (by decide)).1⟩

/-! ## Claim C9: best and worst day -/

theorem foldl_max_init : ∀ (l : List ℚ) (x : ℚ), x ≤ l.foldl max x := by
  intro l
  induction l with
  | nil => intro x; exact le_refl x
  | cons a rest ih =>
    intro x
    exact le_trans (le_max_left x a) (ih (max x a))

theorem foldl_max_mem_le : ∀ (l : List ℚ) (x y : ℚ), y ∈ l → y ≤ l.foldl max x := by
  intro l
  induction l with
  | nil => intro x y hy; simp at hy
  | cons a rest ih =>
    intro x y hy
    rw [List.mem_cons] at hy
    rw [List.foldl_cons]
    rcases hy with hy | hy
    · subst hy
      exact le_trans (le_max_right x y) (foldl_max_init rest (max x y))
    · exact ih (max x a) y hy

theorem foldl_max_attained : ∀ (l : List ℚ) (x : ℚ), l.foldl max x = x ∨ l.foldl max x ∈ l := by
  intro l
  induction l with
  | nil => intro x; left; rfl
  | cons a rest ih =>
    intro x
    rcases ih (max x a) with h | h
    · rcases max_choice x a with hm | hm
      · left
        rw [List.foldl_cons, h, hm]
      · right
        rw [List.foldl_cons, h, hm]
        exact List.mem_cons_self a rest
    · right
      exact List.mem_cons_of_mem a h

theorem foldl_min_init : ∀ (l : List ℚ) (x : ℚ), l.foldl min x ≤ x := by
  intro l
  induction l with
  | nil => intro x; exact le_refl x
  | cons a rest ih =>
    intro x
    exact le_trans (ih (min x a)) (min_le_left x a)

theorem foldl_min_mem_le : ∀ (l : List ℚ) (x y : ℚ), y ∈ l → l.foldl min x ≤ y := by
  intro l
  induction l with
  | nil => intro x y hy; simp at hy
  | cons a rest ih =>
    intro x y hy
    rw [List.mem_cons] at hy
    rw [List.foldl_cons]
    rcases hy with hy | hy
    · subst hy
      exact le_trans (foldl_min_init rest (min x y)) (min_le_right x y)
    · exact ih (min x a) y hy

theorem foldl_min_attained : ∀ (l : List ℚ) (x : ℚ), l.foldl min x = x ∨ l.foldl min x ∈ l := by
  intro l
  induction l with
  | nil => intro x; left; rfl
  | cons a rest ih =>
    intro x
    rcases ih (min x a) with h | h
    · rcases min_choice x a with hm | hm
      · left
        rw [List.foldl_cons, h, hm]
      · right
        rw [List.foldl_cons, h, hm]
        exact List.mem_cons_self a rest
    · right
      exact List.mem_cons_of_mem a h

theorem calculateMetrics_best_worst (st : MetricsV.MState) (p : String × ℚ)
    (rest : List (String × ℚ)) (h : (MetricsV.metricsAcc st).dailyRates = p :: rest) :
    (MetricsV.calculateMetrics st).bestDayVal = (rest.map Prod.snd).foldl max p.2 ∧
    (MetricsV.calculateMetrics st).bestDayDate =
      (((p :: rest).find? (fun q => q.2 = (rest.map Prod.snd).foldl max p.2)).map
        Prod.fst).getD "-" ∧
    (MetricsV.calculateMetrics st).worstDayVal = (rest.map Prod.snd).foldl min p.2 ∧
    (MetricsV.calculateMetrics st).worstDayDate =
      (((p :: rest).find? (fun q => q.2 = (rest.map Prod.snd).foldl min p.2)).map
        Prod.fst).getD "-" := by
  simp only [MetricsV.calculateMetrics]
  rw [h]
  exact ⟨rfl, rfl, rfl, rfl⟩

theorem calculateMetrics_best_worst_nil (st : MetricsV.MState)
    (h : (MetricsV.metricsAcc st).dailyRates = []) :
    (MetricsV.calculateMetrics st).bestDayDate = "-" ∧
    (MetricsV.calculateMetrics st).worstDayDate = "-" := by
  simp only [MetricsV.calculateMetrics]
  rw [h]
  exact ⟨rfl, rfl⟩

/-- C9 counterexample: a document with one attended day at rate one
hundred and one recorded but empty day.  The empty day has no entries,
yet the metrics endpoint reports it as the worst day at rate zero,
while the claimed argmin over days with at least one entry would be the
attended day.  This refutes the claim that bestDay and worstDay range
only over days with at least one entry. -/
theorem c9_counterexample :
    (MetricsV.metricsResponse
        ⟨[⟨"001", "Alice"⟩],
         [("2024-01-01", [⟨"001", "Alice", "present"⟩]), ("2024-01-02", [])]⟩).worstDay =
      "2024-01-02 (0.0%)" ∧
    alookup "2024-01-02"
        (⟨[⟨"001", "Alice"⟩],
          [("2024-01-01", [⟨"001", "Alice", "present"⟩]),
           ("2024-01-02", [])]⟩ : MetricsV.MState).attendance = some [] ∧
    alookup "2024-01-01"
        (MetricsV.calculateMetrics
          ⟨[⟨"001", "Alice"⟩],
           [("2024-01-01", [⟨"001", "Alice", "present"⟩]), ("2024-01-02", [])]⟩).dailyRates =
      some 100 :=
  ⟨by decide, by decide, by decide⟩

/-- C9 amended: bestDay and worstDay are the argmax and argmin of the
per-day rate over all recorded date buckets, including buckets with no
valid entries, which participate with rate zero; the reported field is
the first extremal bucket date in the sorted key order, formatted as
the date followed by the rate, except that it collapses to the bare
dash when that date is itself the literal dash string, a storable
bucket key since these endpoints validate no date format; with no
bucket at all both fields are the dash.  The two-student single-day
example reports an average of 50.0 percent and the same day as best
and worst at 50.0 percent, and a document holding one fully attended
day plus a bucket keyed by the dash string reports the bare dash as
worst day although buckets exist. -/
theorem c9_best_worst_day
    (studs : List MetricsV.MStudent) (att : List (String × List MetricsV.MEntry))
    (hnd : (att.map Prod.fst).Nodup) :
    (att = [] →
      (MetricsV.metricsResponse ⟨studs, att⟩).bestDay = "-" ∧
      (MetricsV.metricsResponse ⟨studs, att⟩).worstDay = "-") ∧
    (¬ att = [] →
      (∃ db rb, (db, rb) ∈ (MetricsV.calculateMetrics ⟨studs, att⟩).dailyRates ∧
        (MetricsV.metricsResponse ⟨studs, att⟩).bestDay =
          (if db = "-" then "-" else db ++ " (" ++ fmtFixed1 rb ++ "%)") ∧
        ∀ q ∈ (MetricsV.calculateMetrics ⟨studs, att⟩).dailyRates, q.2 ≤ rb) ∧
      (∃ dw rw2, (dw, rw2) ∈ (MetricsV.calculateMetrics ⟨studs, att⟩).dailyRates ∧
        (MetricsV.metricsResponse ⟨studs, att⟩).worstDay =
          (if dw = "-" then "-" else dw ++ " (" ++ fmtFixed1 rw2 ++ "%)") ∧
        ∀ q ∈ (MetricsV.calculateMetrics ⟨studs, att⟩).dailyRates, rw2 ≤ q.2)) ∧
    MetricsV.metricsResponse
        (MetricsV.setAttendance
          (MetricsV.addStudent (MetricsV.addStudent ⟨[], []⟩ "001" "Alice" true).2
            "002" "Bob" true).2
          "2024-01-01" [⟨"001", "", "present"⟩, ⟨"002", "", "absent"⟩] true).2 =
      ⟨1, "50.0%", "2024-01-01 (50.0%)", "2024-01-01 (50.0%)", [("2024-01-01", 50)]⟩ ∧
    (MetricsV.setAttendance
        (MetricsV.setAttendance ⟨[⟨"001", "Alice"⟩], []⟩ "2024-01-01"
          [⟨"001", "Alice", "present"⟩] true).2
        "-" [] true).2.attendance =
      [("2024-01-01", [⟨"001", "Alice", "present"⟩]), ("-", [])] ∧
    (MetricsV.metricsResponse
        (MetricsV.setAttendance
          (MetricsV.setAttendance ⟨[⟨"001", "Alice"⟩], []⟩ "2024-01-01"
            [⟨"001", "Alice", "present"⟩] true).2
          "-" [] true).2).worstDay = "-" ∧
    (MetricsV.metricsResponse
        (MetricsV.setAttendance
          (MetricsV.setAttendance ⟨[⟨"001", "Alice"⟩], []⟩ "2024-01-01"
            [⟨"001", "Alice", "present"⟩] true).2
          "-" [] true).2).bestDay = "2024-01-01 (100.0%)" := by
  refine ⟨?_, ?_, by decide, by decide, by decide, by decide⟩
  · intro hatt
    subst hatt
    exact ⟨rfl, rfl⟩
  · intro hatt
    obtain ⟨h1, _, _⟩ := metricsAcc_spec studs att hnd
    cases hdr : (MetricsV.metricsAcc ⟨studs, att⟩).dailyRates with
    | nil =>
      exfalso
      rw [hdr] at h1
      have hperm : List.Perm (List.insertionSort MetricsV.dateLE (att.map Prod.fst))
          (att.map Prod.fst) := List.perm_insertionSort _ _
      have : att.map Prod.fst = [] := by
        have hs : List.insertionSort MetricsV.dateLE (att.map Prod.fst) = [] := by
          cases hss : List.insertionSort MetricsV.dateLE (att.map Prod.fst) with
          | nil => rfl
          | cons q qs => rw [hss] at h1; simp at h1
        exact List.Perm.eq_nil (hs ▸ hperm.symm) |>.symm ▸ rfl
      exact hatt (List.map_eq_nil_iff.mp this)
    | cons p rest =>
      obtain ⟨hbv, hbd, hwv, hwd⟩ := calculateMetrics_best_worst _ p rest hdr
      have hdr2 : (MetricsV.calculateMetrics ⟨studs, att⟩).dailyRates = p :: rest :=
        (calculateMetrics_dailyRates_eq _).trans hdr
      constructor
      · have hbmax1 : p.2 ≤ (rest.map Prod.snd).foldl max p.2 := foldl_max_init _ _
        have hbmem : (rest.map Prod.snd).foldl max p.2 ∈ (p :: rest).map Prod.snd := by
          rcases foldl_max_attained (rest.map Prod.snd) p.2 with h | h
          · rw [h]; exact List.mem_cons_self _ _
          · exact List.mem_cons_of_mem _ h
        have hfind : ((p :: rest).find?
            (fun q => q.2 = (rest.map Prod.snd).foldl max p.2)).isSome = true := by
          rw [List.find?_isSome]
          rw [List.mem_map] at hbmem
          obtain ⟨q, hq, hq2⟩ := hbmem
          exact ⟨q, hq, by simp [hq2]⟩
        cases hfound : (p :: rest).find?
            (fun q => q.2 = (rest.map Prod.snd).foldl max p.2) with
        | none => rw [hfound] at hfind; simp at hfind
        | some q0 =>
          have hq0mem : q0 ∈ p :: rest := List.mem_of_find?_eq_some hfound
          have hq0val : q0.2 = (rest.map Prod.snd).foldl max p.2 := by
            have := List.find?_some hfound
            simpa using this
          refine ⟨q0.1, q0.2, by rw [hdr2]; exact hq0mem, ?_, ?_⟩
          · simp only [MetricsV.metricsResponse]
            rw [hbd, hfound]
            simp only [Option.map_some', Option.getD_some]
            by_cases hq : q0.1 = "-"
            · rw [if_pos hq, if_neg (by simp [hq])]
            · rw [if_neg hq, if_pos (by simp [hq]), hbv, hq0val]
          · intro q hq
            rw [hdr2] at hq
            rw [hq0val]
            rw [List.mem_cons] at hq
            rcases hq with hq | hq
            · rw [hq]
              exact foldl_max_init _ _
            · exact foldl_max_mem_le _ _ _ (List.mem_map_of_mem Prod.snd hq)
      · have hwmem : (rest.map Prod.snd).foldl min p.2 ∈ (p :: rest).map Prod.snd := by
          rcases foldl_min_attained (rest.map Prod.snd) p.2 with h | h
          · rw [h]; exact List.mem_cons_self _ _
          · exact List.mem_cons_of_mem _ h
        have hfind : ((p :: rest).find?
            (fun q => q.2 = (rest.map Prod.snd).foldl min p.2)).isSome = true := by
          rw [List.find?_isSome]
          rw [List.mem_map] at hwmem
          obtain ⟨q, hq, hq2⟩ := hwmem
          exact ⟨q, hq, by simp [hq2]⟩
        cases hfound : (p :: rest).find?
            (fun q => q.2 = (rest.map Prod.snd).foldl min p.2) with
        | none => rw [hfound] at hfind; simp at hfind
        | some q0 =>
          have hq0mem : q0 ∈ p :: rest := List.mem_of_find?_eq_some hfound
          have hq0val : q0.2 = (rest.map Prod.snd).foldl min p.2 := by
            have := List.find?_some hfound
            simpa using this
          refine ⟨q0.1, q0.2, by rw [hdr2]; exact hq0mem, ?_, ?_⟩
          · simp only [MetricsV.metricsResponse]
            rw [hwd, hfound]
            simp only [Option.map_some', Option.getD_some]
            by_cases hq : q0.1 = "-"
            · rw [if_pos hq, if_neg (by simp [hq])]
            · rw [if_neg hq, if_pos (by simp [hq]), hwv, hq0val]
          · intro q hq
            rw [hdr2] at hq
            rw [hq0val]
            rw [List.mem_cons] at hq
            rcases hq with hq | hq
            · rw [hq]
              exact foldl_min_init _ _
            · exact foldl_min_mem_le _ _ _ (List.mem_map_of_mem Prod.snd hq)

/-- C9 witness: the amended theorem applied at the concrete empty
document. -/
theorem c9_witness :
    (MetricsV.metricsResponse ⟨([] : List MetricsV.MStudent), []⟩).bestDay = "-" ∧
    (MetricsV.metricsResponse ⟨([] : List MetricsV.MStudent), []⟩).worstDay = "-" :=
  (c9_best_worst_day [] [] (by decide)).1 rfl

/-! ## Claim C2: the ranking order and standard competition ranks -/

/-- Forget the rank of a ranked row. -/
def toSummary (y : MetricsV.Ranked) : MetricsV.Summary := ⟨y.roll_no, y.name, y.percent⟩

theorem addRanks_map_toSummary :
    ∀ (l : List MetricsV.Summary) (p : ℚ) (r k : Nat),
      (MetricsV.addRanks l p r k).map toSummary = l := by
  intro l
  induction l with
  | nil => intro p r k; rfl
  | cons s rest ih =>
    intro p r k
    by_cases hx : s.percent = p
    · rw [MetricsV.addRanks, if_neg (by simp [hx]), List.map_cons, ih]
      rfl
    · rw [MetricsV.addRanks, if_pos (by simp [hx]), List.map_cons, ih]
      rfl

/-- The rank attached to each output row of the rank pass: the carried
rank for rows at the percentage last seen, and otherwise one past the
consumed row count plus the number of strictly better rows. -/
theorem addRanks_rank :
    ∀ (l : List MetricsV.Summary) (p : ℚ) (r k : Nat),
      l.Pairwise (fun a b => b.percent ≤ a.percent) →
      ((∀ x ∈ l, x.percent ≤ p) ∨ (∀ x ∈ l, p < x.percent)) →
      ∀ y ∈ MetricsV.addRanks l p r k,
        (∃ x ∈ l, y.percent = x.percent) ∧
        y.rank = if y.percent = p then r
                 else r + k + 1 + l.countP (fun s => decide (y.percent < s.percent)) := by
  intro l
  induction l with
  | nil => intro p r k _ _ y hy; simp [MetricsV.addRanks] at hy
  | cons x rest ih =>
    intro p r k hs hp y hy
    have hrest : rest.Pairwise (fun a b => b.percent ≤ a.percent) := hs.of_cons
    have hxrest : ∀ z ∈ rest, z.percent ≤ x.percent := by
      intro z hz
      exact (List.pairwise_cons.mp hs).1 z hz
    by_cases hx : x.percent = p
    · rw [MetricsV.addRanks, if_neg (by simp [hx])] at hy
      have hp1 : ∀ z ∈ x :: rest, z.percent ≤ p := by
        rcases hp with hp | hp
        · exact hp
        · exact absurd (hx ▸ hp x (List.mem_cons_self x rest)) (lt_irrefl p)
      rw [List.mem_cons] at hy
      rcases hy with hy | hy
      · subst hy
        refine ⟨⟨x, List.mem_cons_self x rest, rfl⟩, ?_⟩
        rw [if_pos hx]
      · obtain ⟨⟨z, hz, hyz⟩, hrank⟩ :=
          ih p r (k + 1) hrest (Or.inl (fun z hz => hp1 z (List.mem_cons_of_mem x hz))) y hy
        refine ⟨⟨z, List.mem_cons_of_mem x hz, hyz⟩, ?_⟩
        by_cases hyp : y.percent = p
        · rw [if_pos hyp] at hrank ⊢
          exact hrank
        · rw [if_neg hyp] at hrank ⊢
          have hylt : y.percent < p := by
            have h1 : y.percent ≤ x.percent := hyz ▸ hxrest z hz
            exact lt_of_le_of_ne (hx ▸ h1) hyp
          rw [List.countP_cons]
          have hterm : (decide (y.percent < x.percent) : Bool) = true := by
            simp only [decide_eq_true_eq]
            exact hx ▸ hylt
          rw [hterm, if_pos rfl]
          omega
    · rw [MetricsV.addRanks, if_pos (by simp [hx])] at hy
      rw [List.mem_cons] at hy
      rcases hy with hy | hy
      · subst hy
        refine ⟨⟨x, List.mem_cons_self x rest, rfl⟩, ?_⟩
        rw [if_neg hx]
        have hz : (x :: rest).countP
            (fun s => decide ((⟨r + k + 1, x.roll_no, x.name, x.percent⟩ :
              MetricsV.Ranked).percent < s.percent)) = 0 := by
          rw [List.countP_eq_zero]
          intro z hz
          rw [List.mem_cons] at hz
          simp only [decide_eq_true_eq]
          rcases hz with hz | hz
          · rw [hz]
            exact lt_irrefl _
          · exact not_lt_of_le (hxrest z hz)
        rw [hz]
      · obtain ⟨⟨z, hz, hyz⟩, hrank⟩ :=
          ih x.percent (r + k + 1) 0 hrest (Or.inl hxrest) y hy
        refine ⟨⟨z, List.mem_cons_of_mem x hz, hyz⟩, ?_⟩
        have hyle : y.percent ≤ x.percent := hyz ▸ hxrest z hz
        have hyp : ¬ y.percent = p := by
          rcases hp with hp | hp
          · have hxlt : x.percent < p :=
              lt_of_le_of_ne (hp x (List.mem_cons_self x rest)) hx
            exact ne_of_lt (lt_of_le_of_lt hyle hxlt)
          · have hplt : p < y.percent := by
              rw [hyz]
              exact hp z (List.mem_cons_of_mem x hz)
            exact ne_of_gt hplt
        rw [if_neg hyp]
        by_cases hyx : y.percent = x.percent
        · rw [if_pos hyx] at hrank
          have hcz : (x :: rest).countP (fun s => decide (y.percent < s.percent)) = 0 := by
            rw [List.countP_eq_zero]
            intro z2 hz2
            rw [List.mem_cons] at hz2
            simp only [decide_eq_true_eq]
            rcases hz2 with hz2 | hz2
            · rw [hz2, hyx]
              exact lt_irrefl _
            · rw [hyx]
              exact not_lt_of_le (hxrest z2 hz2)
          rw [hcz]
          omega
        · rw [if_neg hyx] at hrank
          rw [List.countP_cons]
          have hterm : (decide (y.percent < x.percent) : Bool) = true := by
            simp only [decide_eq_true_eq]
            exact lt_of_le_of_ne hyle hyx
          rw [hterm, if_pos rfl]
          omega

theorem summaries_percent_nonneg (m : List (String × MetricsV.SMet)) :
    ∀ s ∈ MetricsV.summaries m, 0 ≤ s.percent := by
  intro s hs
  rw [MetricsV.summaries, List.mem_map] at hs
  obtain ⟨p, _, hp⟩ := hs
  rw [← hp]
  by_cases ht : p.2.total > 0
  · simp only [ht, if_pos]
    have h1 : (0 : ℚ) ≤ (p.2.present : ℚ) / (p.2.total : ℚ) :=
      div_nonneg (Nat.cast_nonneg _) (Nat.cast_nonneg _)
    calc (0 : ℚ) ≤ (p.2.present : ℚ) / (p.2.total : ℚ) * 100 := by
          exact mul_nonneg h1 (by norm_num)
      _ = _ := rfl
  · simp [ht]

/-- The example document behind the tie rule: three students over ten
days with attendance percentages ninety, ninety and eighty. -/
def rankEx : MetricsV.MState :=
  ⟨[⟨"A1", "Alice"⟩, ⟨"A2", "Bob"⟩, ⟨"A3", "Carol"⟩],
   [("2024-01-01", [⟨"A1", "Alice", "present"⟩, ⟨"A2", "Bob", "present"⟩, ⟨"A3", "Carol", "present"⟩]),
    ("2024-01-02", [⟨"A1", "Alice", "present"⟩, ⟨"A2", "Bob", "present"⟩, ⟨"A3", "Carol", "present"⟩]),
    ("2024-01-03", [⟨"A1", "Alice", "present"⟩, ⟨"A2", "Bob", "present"⟩, ⟨"A3", "Carol", "present"⟩]),
    ("2024-01-04", [⟨"A1", "Alice", "present"⟩, ⟨"A2", "Bob", "present"⟩, ⟨"A3", "Carol", "present"⟩]),
    ("2024-01-05", [⟨"A1", "Alice", "present"⟩, ⟨"A2", "Bob", "present"⟩, ⟨"A3", "Carol", "present"⟩]),
    ("2024-01-06", [⟨"A1", "Alice", "present"⟩, ⟨"A2", "Bob", "present"⟩, ⟨"A3", "Carol", "present"⟩]),
    ("2024-01-07", [⟨"A1", "Alice", "present"⟩, ⟨"A2", "Bob", "present"⟩, ⟨"A3", "Carol", "present"⟩]),
    ("2024-01-08", [⟨"A1", "Alice", "present"⟩, ⟨"A2", "Bob", "present"⟩, ⟨"A3", "Carol", "present"⟩]),
    ("2024-01-09", [⟨"A1", "Alice", "present"⟩, ⟨"A2", "Bob", "present"⟩, ⟨"A3", "Carol", "absent"⟩]),
    ("2024-01-10", [⟨"A1", "Alice", "absent"⟩, ⟨"A2", "Bob", "absent"⟩, ⟨"A3", "Carol", "absent"⟩])]⟩

/-- C2: the rankings list is sorted descending by percentage with ties
broken by ascending name, every row carries the standard competition
rank, one plus the number of rows of strictly higher percentage, and in
particular percentages ninety, ninety, eighty receive ranks one, one,
three. -/
theorem c2_rankings_order_and_ranks (st : MetricsV.MState) (y : MetricsV.Ranked)
    (hy : y ∈ MetricsV.rankingsList st) :
    List.Pairwise (fun a b : MetricsV.Ranked =>
      b.percent < a.percent ∨ (a.percent = b.percent ∧ strLe a.name b.name = true))
      (MetricsV.rankingsList st) ∧
    y.rank = 1 + (MetricsV.rankingsList st).countP (fun z => decide (y.percent < z.percent)) ∧
    (MetricsV.rankingsList rankEx).map (fun z => (z.rank, z.roll_no)) =
      [(1, "A1"), (1, "A2"), (3, "A3")] ∧
    (MetricsV.rankingsPayload rankEx).map (fun z => (z.rank, z.attendance_percent)) =
      [(1, "90.0"), (1, "90.0"), (3, "80.0")] := by
  have hsd : List.Pairwise MetricsV.sumLE
      (List.insertionSort MetricsV.sumLE
        (MetricsV.summaries (MetricsV.calculateMetrics st).studentMetrics)) :=
    List.sorted_insertionSort MetricsV.sumLE _
  have hmap2 : (MetricsV.rankingsList st).map toSummary =
      List.insertionSort MetricsV.sumLE
        (MetricsV.summaries (MetricsV.calculateMetrics st).studentMetrics) :=
    addRanks_map_toSummary _ (-1) 0 0
  refine ⟨?_, ?_, by decide, by decide⟩
  · have hsd2 := hsd
    rw [← hmap2, List.pairwise_map] at hsd2
    exact hsd2
  · have hdesc : (List.insertionSort MetricsV.sumLE
        (MetricsV.summaries (MetricsV.calculateMetrics st).studentMetrics)).Pairwise
        (fun a b => b.percent ≤ a.percent) := by
      refine hsd.imp ?_
      intro a b hab
      rcases hab with hab | ⟨hab, _⟩
      · exact le_of_lt hab
      · exact le_of_eq hab.symm
    have hneg : ∀ x ∈ List.insertionSort MetricsV.sumLE
        (MetricsV.summaries (MetricsV.calculateMetrics st).studentMetrics),
        (-1 : ℚ) < x.percent := by
      intro x hx
      have hx2 : x ∈ MetricsV.summaries (MetricsV.calculateMetrics st).studentMetrics :=
        (List.perm_insertionSort MetricsV.sumLE _).mem_iff.mp hx
      have h0 := summaries_percent_nonneg _ x hx2
      linarith
    obtain ⟨⟨x, hx, hyx⟩, hrank⟩ :=
      addRanks_rank _ (-1) 0 0 hdesc (Or.inr hneg) y hy
    have hcond : ¬ y.percent = -1 := by
      have h0 : (-1 : ℚ) < y.percent := hyx ▸ hneg x hx
      exact ne_of_gt h0
    rw [if_neg hcond] at hrank
    have hcount : (List.insertionSort MetricsV.sumLE
        (MetricsV.summaries (MetricsV.calculateMetrics st).studentMetrics)).countP
          (fun s => decide (y.percent < s.percent)) =
        (MetricsV.rankingsList st).countP (fun z => decide (y.percent < z.percent)) := by
      rw [← hmap2, List.countP_map]
      rfl
    rw [hcount] at hrank
    rw [hrank]

/-- C2 witness: the theorem applied at the concrete one-student
document. -/
theorem c2_witness :
    (⟨1, "001", "Alice", 100⟩ : MetricsV.Ranked) ∈ MetricsV.rankingsList mSt1 ∧
    (⟨1, "001", "Alice", 100⟩ : MetricsV.Ranked).rank =
      1 + (MetricsV.rankingsList mSt1).countP
        (fun z => decide ((⟨1, "001", "Alice", 100⟩ : MetricsV.Ranked).percent < z.percent)) :=
  ⟨by decide, (c2_rankings_order_and_ranks mSt1 _ (by decide)).2.1⟩
end
